import Mathlib

/-!
Verification of the rate-governed GitHub ingestion pipeline
(deterministic stratified sampler, baseline gate, cache/retry layer,
monthly aggregation) against its specification.

The definitions below are shallow embeddings of the TypeScript source:
`src/app/api/sync/route.ts` (sampler, per-user onboarding, repo flow
metrics), `src/lib/rate-limiter.ts` (quota budgets), `src/lib/github.ts`
(retry and cache layer) and the metrics aggregation route
(`percentile`, `computeQuantiles`, `daysInMonthFromYm`,
`userMonthlyContributions`).  JavaScript 32-bit integer operations are
modelled on `Nat` with explicit `% 2 ^ 32`; money-free numeric results
(rates, quantiles) are modelled on `ℚ`.
-/

namespace GHTrends

/-- JavaScript `>>> 0` is ToUint32: the operand's bit pattern is reduced mod `2 ^ 32`. -/
def U32 : Nat := 2 ^ 32

/-- `Math.imul(a, b)`: 32-bit multiplication; the resulting bit pattern is the
product of the operand patterns mod `2 ^ 32`. -/
def imul (a b : Nat) : Nat := a * b % U32

/-- One call of the closure returned by `mulberry32(seed)` in
`src/app/api/sync/route.ts`.  The closure's state is the 32-bit variable `t`;
each call advances `t` by `0x6d2b79f5` and mixes.  We return the pair
(output numerator, next state): the JavaScript return value is
`numerator / 4294967296`.  All JS bitwise steps (`^`, `|`, `>>>`,
`Math.imul`, int32 addition) act on the operands' bit patterns, which this
embedding tracks as naturals below `2 ^ 32`. -/
def mulberry32Next (t0 : Nat) : Nat × Nat :=
  let t := (t0 + 0x6d2b79f5) % U32
  let r1 := imul (t ^^^ (t >>> 15)) (t ||| 1)
  let r2 := (r1 + imul (r1 ^^^ (r1 >>> 7)) (r1 ||| 61)) % U32
  let r := r1 ^^^ r2
  (r ^^^ (r >>> 14), t)

/-- The JavaScript return value `((r ^ (r >>> 14)) >>> 0) / 4294967296` of one
`mulberry32` call, as a rational. -/
def mulberry32Val (t : Nat) : ℚ := ((mulberry32Next t).1 : ℚ) / (U32 : ℚ)

/-- `makeBandSeed(baseSeed, minFollowers, maxFollowers)` from
`src/app/api/sync/route.ts`: `(baseSeed + minFollowers * 31 + (maxFollowers ?? 0) * 17) >>> 0`. -/
def makeBandSeed (baseSeed minFollowers : Nat) (maxFollowers : Option Nat) : Nat :=
  (baseSeed + minFollowers * 31 + maxFollowers.getD 0 * 17) % U32

/-- The destructuring swap `[items[i], items[j]] = [items[j], items[i]]`.
If either index is out of range the list is returned unchanged (the shuffle
only ever uses in-range indexes, as proved below). -/
def listSwap {α : Type} (l : List α) (i j : Nat) : List α :=
  match l[i]?, l[j]? with
  | some a, some b => (l.set i b).set j a
  | _, _ => l

/-- The body of `shuffleInPlace`, iterating index `i` from `items.length - 1`
down to `1`; `t` is the mulberry32 state.  The chosen index
`j = Math.floor(rng() * (i + 1))` equals `numerator * (i + 1) / 2 ^ 32` in
integer arithmetic, because `rng()` is exactly `numerator / 2 ^ 32`. -/
def shuffleGo {α : Type} (l : List α) (t : Nat) : Nat → List α
  | 0 => l
  | i + 1 =>
    let s := mulberry32Next t
    let j := s.1 * (i + 2) / U32
    shuffleGo (listSwap l (i + 1) j) s.2 i

/-- `shuffleInPlace(items, seed)`: Fisher-Yates with `mulberry32(seed)`;
the generator state starts at `seed >>> 0`. -/
def shuffleInPlace {α : Type} (l : List α) (seed : Nat) : List α :=
  shuffleGo l (seed % U32) (l.length - 1)

/-- One element of the GitHub user-search result page (`SearchUserResult`
in `src/app/api/sync/route.ts`). -/
structure SearchUserResult where
  id : Nat
  login : String
  avatar_url : String
  html_url : String
deriving DecidableEq, Repr

/-- One assignment `map.set(k, v)` of a JavaScript `Map` represented as an
association list in iteration order: a repeated key keeps its original
position but takes the newly assigned value; a fresh key is appended. -/
def mapInsert (m : List (Nat × SearchUserResult)) (k : Nat) (v : SearchUserResult) :
    List (Nat × SearchUserResult) :=
  if m.any (fun p => p.1 == k) then
    m.map (fun p => if p.1 == k then (k, v) else p)
  else m ++ [(k, v)]

/-- `Array.from(new Map(results.map((r) => [r.id, r])).values())`: deduplicate
by `id`, keeping first-insertion order and the last written value per key. -/
def jsMapDedupById (rs : List SearchUserResult) : List SearchUserResult :=
  (rs.foldl (fun m r => mapInsert m r.id r) []).map Prod.snd

/-- The two fixed sort orders used by `sampleUsersFromBand` (`desc` first, then `asc`). -/
inductive SortOrder
  | desc
  | asc
deriving DecidableEq, Repr

/-- `sampleUsersFromBand` from `src/app/api/sync/route.ts`, over a fixed
upstream result set `fetchPage` (the page of search results returned for a
given order and 1-based page number): accumulate `pagesPerOrder` pages for
order `desc` then `asc`, deduplicate by id, shuffle with the band seed,
truncate to `target`. -/
def sampleUsersFromBand (fetchPage : SortOrder → Nat → List SearchUserResult)
    (target seed pagesPerOrder : Nat) : List SearchUserResult :=
  let results :=
    ([SortOrder.desc, SortOrder.asc].map fun order =>
      ((List.range pagesPerOrder).map fun p => fetchPage order (p + 1)).flatten).flatten
  let deduped := jsMapDedupById results
  (shuffleInPlace deduped seed).take target

theorem U32_pos : 0 < U32 := by
  unfold U32; norm_num

theorem imul_lt (a b : Nat) : imul a b < U32 :=
  Nat.mod_lt _ U32_pos

theorem xor_lt_U32 {a b : Nat} (ha : a < U32) (hb : b < U32) : a ^^^ b < U32 := by
  have ha2 : a < 2 ^ 32 := by simpa [U32] using ha
  have hb2 : b < 2 ^ 32 := by simpa [U32] using hb
  have h : a ^^^ b < 2 ^ 32 := Nat.xor_lt_two_pow ha2 hb2
  simpa [U32] using h

theorem lt_U32_xor_shiftRight {r k : Nat} (hr : r < U32) : r ^^^ (r >>> k) < U32 := by
  have h2 : r >>> k < U32 := by
    refine lt_of_le_of_lt ?_ hr
    rw [Nat.shiftRight_eq_div_pow]
    exact Nat.div_le_self _ _
  exact xor_lt_U32 hr h2

theorem mulberry32Next_fst_lt (t : Nat) : (mulberry32Next t).1 < U32 := by
  simp only [mulberry32Next]
  exact lt_U32_xor_shiftRight (xor_lt_U32 (imul_lt _ _) (Nat.mod_lt _ U32_pos))

theorem shuffleIdx_le (numerator i : Nat) (h : numerator < U32) :
    numerator * (i + 1) / U32 ≤ i := by
  have h2 : numerator * (i + 1) < U32 * (i + 1) :=
    mul_lt_mul_of_pos_right h (Nat.succ_pos i)
  have h3 := Nat.div_lt_of_lt_mul h2
  omega

theorem cons_set_perm {α : Type} (t : List α) (k : Nat) (x : α) (hk : k < t.length) :
    (t[k] :: t.set k x).Perm (x :: t) := by
  induction t generalizing k with
  | nil => simp at hk
  | cons y s ih =>
    cases k with
    | zero => simpa using List.Perm.swap x y s
    | succ k =>
      have hk' : k < s.length := by simpa using hk
      have h1 : ((y :: s)[k + 1] :: (y :: s).set (k + 1) x) = s[k] :: y :: s.set k x := by
        simp
      rw [h1]
      exact ((List.Perm.swap y s[k] (s.set k x)).trans
        (((ih k hk').cons y))).trans (List.Perm.swap x y s)

theorem set_set_swap_perm {α : Type} (l : List α) (i j : Nat)
    (hi : i < l.length) (hj : j < l.length) :
    ((l.set i l[j]).set j l[i]).Perm l := by
  induction l generalizing i j with
  | nil => simp at hi
  | cons x t ih =>
    cases i with
    | zero =>
      cases j with
      | zero => simp
      | succ j =>
        have hj' : j < t.length := by simpa using hj
        simpa using cons_set_perm t j x hj'
    | succ i =>
      have hi' : i < t.length := by simpa using hi
      cases j with
      | zero =>
        simpa using cons_set_perm t i x hi'
      | succ j =>
        have hj' : j < t.length := by simpa using hj
        simpa using (ih i j hi' hj').cons x

theorem listSwap_perm {α : Type} (l : List α) (i j : Nat) : (listSwap l i j).Perm l := by
  unfold listSwap
  cases hi : l[i]? with
  | none => exact List.Perm.refl l
  | some a =>
    cases hj : l[j]? with
    | none => exact List.Perm.refl l
    | some b =>
      have hi' : i < l.length := by
        by_contra h
        rw [List.getElem?_eq_none (by omega)] at hi
        exact Option.noConfusion hi
      have hj' : j < l.length := by
        by_contra h
        rw [List.getElem?_eq_none (by omega)] at hj
        exact Option.noConfusion hj
      have ha : a = l[i] := by
        have h := List.getElem?_eq_getElem hi'
        rw [hi] at h; exact Option.some.inj h
      have hb : b = l[j] := by
        have h := List.getElem?_eq_getElem hj'
        rw [hj] at h; exact Option.some.inj h
      subst ha; subst hb
      exact set_set_swap_perm l i j hi' hj'

theorem shuffleGo_perm {α : Type} (i : Nat) :
    ∀ (l : List α) (t : Nat), (shuffleGo l t i).Perm l := by
  induction i with
  | zero => intro l t; exact List.Perm.refl l
  | succ i ih =>
    intro l t
    exact (ih _ _).trans (listSwap_perm l (i + 1) _)

theorem shuffleInPlace_perm {α : Type} (l : List α) (seed : Nat) :
    (shuffleInPlace l seed).Perm l :=
  shuffleGo_perm _ l _

/-- Claim C1: for every base seed, band descriptor, and fixed sequence of
upstream search-result pages, two independent runs of the sampling procedure
(pages for orders desc then asc, dedup by platform id with last write
winning, mulberry32-seeded Fisher-Yates shuffle, truncation to the target)
produce identical candidate lists in identical order; moreover the run is
exactly that composition of steps. -/
theorem C1_sampler_deterministic
    (fetchPage : SortOrder → Nat → List SearchUserResult)
    (baseSeed minFollowers target pagesPerOrder : Nat) (maxFollowers : Option Nat) :
    sampleUsersFromBand fetchPage target
        (makeBandSeed baseSeed minFollowers maxFollowers) pagesPerOrder
      = sampleUsersFromBand fetchPage target
        (makeBandSeed baseSeed minFollowers maxFollowers) pagesPerOrder
    ∧ sampleUsersFromBand fetchPage target
        (makeBandSeed baseSeed minFollowers maxFollowers) pagesPerOrder
      = (shuffleInPlace
          (jsMapDedupById
            (([SortOrder.desc, SortOrder.asc].map fun order =>
              ((List.range pagesPerOrder).map fun p => fetchPage order (p + 1)).flatten).flatten))
          (makeBandSeed baseSeed minFollowers maxFollowers)).take target :=
  ⟨rfl, rfl⟩

/-- Claim C9: the derived band seed is
`(baseSeed + minThreshold * 31 + (maxThreshold ?? 0) * 17) mod 2 ^ 32`, and under
any common base seed the default bands `{min:100, max:150}` and
`{min:150, max:200}` derive different band seeds. -/
theorem C9_band_seed_formula_and_distinctness
    (baseSeed minFollowers : Nat) (maxFollowers : Option Nat) :
    makeBandSeed baseSeed minFollowers maxFollowers
        = (baseSeed + minFollowers * 31 + maxFollowers.getD 0 * 17) % 2 ^ 32
    ∧ makeBandSeed baseSeed 100 (some 150) ≠ makeBandSeed baseSeed 150 (some 200) := by
  constructor
  · rfl
  · unfold makeBandSeed U32
    simp only [Option.getD_some]
    omega

/-- Claim C10: every mulberry32 output lies in `[0, 1)`, so every index
`j = Math.floor(rng() * (i + 1))` chosen by the seeded shuffle satisfies
`j ≤ i` (no out-of-bounds access), and the shuffled list is a permutation of
the input. -/
theorem C10_shuffle_in_bounds_and_perm :
    (∀ t : Nat, (0 : ℚ) ≤ mulberry32Val t ∧ mulberry32Val t < 1)
    ∧ (∀ t i : Nat, (mulberry32Next t).1 * (i + 1) / U32 ≤ i)
    ∧ (∀ (α : Type) (l : List α) (seed : Nat), (shuffleInPlace l seed).Perm l) := by
  refine ⟨fun t => ⟨?_, ?_⟩, fun t i => ?_, fun α l seed => shuffleInPlace_perm l seed⟩
  · exact div_nonneg (Nat.cast_nonneg _) (Nat.cast_nonneg _)
  · have h := mulberry32Next_fst_lt t
    have hU : (0 : ℚ) < (U32 : ℚ) := by
      unfold U32; norm_num
    rw [mulberry32Val, div_lt_one hU]
    exact_mod_cast h
  · exact shuffleIdx_le _ i (mulberry32Next_fst_lt t)

/-! ### Rate limiter (`src/lib/rate-limiter.ts`) -/

/-- The three independently rate-limited API channels. -/
inductive Channel
  | rest
  | search
  | graphql
deriving DecidableEq, Repr

/-- One channel's quota budget (`RateLimitState` in `src/lib/rate-limiter.ts`);
`resetAt` is an epoch timestamp in milliseconds. -/
structure RateLimitState where
  remaining : Int
  limit : Int
  resetAt : Int
deriving DecidableEq, Repr

/-- The `GitHubRateLimiter` singleton's private state. -/
structure LimiterState where
  restLimit : RateLimitState
  searchLimit : RateLimitState
  graphqlLimit : RateLimitState
deriving DecidableEq, Repr

/-- The field initializers of `GitHubRateLimiter`: optimistic defaults, with
`resetAt = new Date()` taken at construction time `t0`. -/
def initLimiter (t0 : Int) : LimiterState :=
  { restLimit := ⟨5000, 5000, t0⟩
    searchLimit := ⟨30, 30, t0⟩
    graphqlLimit := ⟨5000, 5000, t0⟩ }

/-- The numeric rate-limit response headers, each `none` when absent
(`parseInt(headers[...] || default)` then applies the default). -/
structure RateHeaders where
  remaining : Option Int
  reset : Option Int
  limit : Option Int
deriving DecidableEq, Repr

/-- Select a channel's budget (the `switch`/conditional used by the limiter). -/
def channelState (s : LimiterState) : Channel → RateLimitState
  | Channel.rest => s.restLimit
  | Channel.search => s.searchLimit
  | Channel.graphql => s.graphqlLimit

/-- `updateFromHeaders(headers, type)`: parse remaining/reset/limit with
defaults 5000/0/5000 and replace that channel's budget wholesale
(`resetAt = new Date(reset * 1000)`). -/
def updateFromHeaders (s : LimiterState) (h : RateHeaders) : Channel → LimiterState :=
  let st : RateLimitState :=
    { remaining := h.remaining.getD 5000
      limit := h.limit.getD 5000
      resetAt := h.reset.getD 0 * 1000 }
  fun ch =>
    match ch with
    | Channel.rest => { s with restLimit := st }
    | Channel.search => { s with searchLimit := st }
    | Channel.graphql => { s with graphqlLimit := st }

/-- The per-channel buffer: `type === "search" ? 5 : 100`. -/
def buffer : Channel → Int
  | Channel.search => 5
  | _ => 100

/-- `canMakeRequest(type)`: `state.remaining > buffer || state.resetAt < new Date()`. -/
def canMakeRequest (s : LimiterState) (ch : Channel) (now : Int) : Bool :=
  let st := channelState s ch
  st.remaining > buffer ch || st.resetAt < now

/-- The limiter state after an arbitrary sequence of `updateFromHeaders`
(observe) calls, starting from the constructor's optimistic defaults. -/
def observeAll (t0 : Int) (obs : List (Channel × RateHeaders)) : LimiterState :=
  obs.foldl (fun s o => updateFromHeaders s o.2 o.1) (initLimiter t0)

/-- Claim C7: for every channel and every sequence of observe
(`updateFromHeaders`) calls, the non-blocking `canMakeRequest` predicate
returns false whenever `remaining ≤ buffer` and `resetAt` is still in the
future, and true when `remaining` is above the buffer or the reset time has
already passed; the buffer is 5 for the search channel and 100 for the two
broad channels. -/
theorem C7_can_proceed_predicate (t0 : Int) (obs : List (Channel × RateHeaders))
    (ch : Channel) (now : Int) :
    ((channelState (observeAll t0 obs) ch).remaining ≤ buffer ch →
      now < (channelState (observeAll t0 obs) ch).resetAt →
      canMakeRequest (observeAll t0 obs) ch now = false)
    ∧ (buffer ch < (channelState (observeAll t0 obs) ch).remaining ∨
        (channelState (observeAll t0 obs) ch).resetAt < now →
      canMakeRequest (observeAll t0 obs) ch now = true)
    ∧ buffer Channel.search = 5 ∧ buffer Channel.rest = 100 ∧ buffer Channel.graphql = 100 := by
  refine ⟨?_, ?_, rfl, rfl, rfl⟩
  · intro h1 h2
    simp only [canMakeRequest, Bool.or_eq_false_iff, decide_eq_false_iff_not, not_lt]
    omega
  · intro h
    simp only [canMakeRequest, Bool.or_eq_true, decide_eq_true_eq]
    omega

/-- Witness for C7: after observing a search-channel response with 3 remaining
calls and a reset at epoch second 10 (so `resetAt = 10000` ms), a
`canMakeRequest("search")` at `now = 5000` ms returns false. -/
theorem C7_can_proceed_predicate_witness :
    canMakeRequest (observeAll 0 [(Channel.search, ⟨some 3, some 10, some 30⟩)])
      Channel.search 5000 = false :=
  (C7_can_proceed_predicate 0 [(Channel.search, ⟨some 3, some 10, some 30⟩)]
    Channel.search 5000).1 (by decide) (by decide)

/-! ### Retry layer (`src/lib/github.ts`) -/

/-- The shape of a thrown request error, as probed by `getStatusCode` /
`getErrorCode` / `isRetryableError`: a possible numeric `status` (directly or
on `response`), a possible string `code` (directly or on `cause`), the error
`name`, and the error `message`. -/
structure JsError where
  status : Option Int
  responseStatus : Option Int
  code : Option String
  causeCode : Option String
  name : Option String
  message : Option String
deriving DecidableEq, Repr

/-- `getStatusCode(error)`: `error.status` if numeric, else `error.response.status`. -/
def getStatusCode (e : JsError) : Option Int :=
  match e.status with
  | some s => some s
  | none => e.responseStatus

/-- `getErrorCode(error)`: `error.code` if a string, else `error.cause.code`. -/
def getErrorCode (e : JsError) : Option String :=
  match e.code with
  | some c => some c
  | none => e.causeCode

/-- Substring test on character lists (the JS `String.prototype.includes`). -/
def charsInclude (pat : List Char) : List Char → Bool
  | [] => pat.isEmpty
  | c :: rest => pat.isPrefixOf (c :: rest) || charsInclude pat rest

/-- `message.includes(pat)`. -/
def strIncludes (s pat : String) : Bool :=
  charsInclude pat.data s.data

/-- The retryable HTTP statuses of `isRetryableError`. -/
def retryableStatuses : List Int := [408, 429, 500, 502, 503, 504]

/-- The transport-level error codes of `isRetryableError`. -/
def transportCodes : List String := ["ETIMEDOUT", "ECONNRESET", "ECONNREFUSED", "EAI_AGAIN"]

/-- `isRetryableError(error)` from `src/lib/github.ts`.  The `status &&` and
`code &&` guards are JavaScript truthiness tests: status 0 and the empty
string are falsy. -/
def isRetryableError (e : JsError) : Bool :=
  (match getStatusCode e with
    | some s => decide (s ≠ 0) && retryableStatuses.contains s
    | none => false)
  || (match getErrorCode e with
    | some c => (c != "") && transportCodes.contains c
    | none => false)
  || (e.name == some "AbortError")
  || (match e.message with
    | some m => strIncludes m "fetch failed"
    | none => false)

/-- The retry loop of `withRetries`, with an explicit count of calls made.
`fn k` is the outcome of the k-th invocation of the wrapped call (1-based);
`remaining` is `maxAttempts - attempt`.  On the last attempt, or on a
non-retryable error, the error propagates. -/
def withRetriesAux {T : Type} (fn : Nat → Except JsError T) :
    Nat → Nat → Except JsError T × Nat
  | attempt, remaining =>
    match fn attempt with
    | Except.ok v => (Except.ok v, 1)
    | Except.error e =>
      match remaining with
      | 0 => (Except.error e, 1)
      | r + 1 =>
        if isRetryableError e then
          let res := withRetriesAux fn (attempt + 1) r
          (res.1, res.2 + 1)
        else (Except.error e, 1)

/-- `withRetries(fn, context)` with `GITHUB_RETRY_ATTEMPTS = maxAttempts`
(clamped to at least 1 in the source), returning the outcome together with the
number of times the wrapped call ran. -/
def withRetries {T : Type} (fn : Nat → Except JsError T) (maxAttempts : Nat) :
    Except JsError T × Nat :=
  withRetriesAux fn 1 (maxAttempts - 1)

/-- The non-jittered backoff component of one retry:
`Math.min(GITHUB_RETRY_MAX_DELAY_MS, GITHUB_RETRY_BASE_DELAY_MS * 2 ** (attempt - 1))`. -/
def backoffDelay (base maxDelay attempt : Nat) : Nat :=
  min maxDelay (base * 2 ^ (attempt - 1))

theorem withRetriesAux_not_retryable {T : Type} (fn : Nat → Except JsError T)
    (attempt remaining : Nat) (e : JsError)
    (hf : fn attempt = Except.error e) (hr : isRetryableError e = false) :
    withRetriesAux fn attempt remaining = (Except.error e, 1) := by
  cases remaining with
  | zero => simp [withRetriesAux, hf]
  | succ r => simp [withRetriesAux, hf, hr]

theorem withRetriesAux_count_le {T : Type} (fn : Nat → Except JsError T) :
    ∀ remaining attempt, (withRetriesAux fn attempt remaining).2 ≤ remaining + 1 := by
  intro remaining
  induction remaining with
  | zero =>
    intro attempt
    unfold withRetriesAux
    cases fn attempt <;> simp
  | succ r ih =>
    intro attempt
    unfold withRetriesAux
    cases fn attempt with
    | ok v => simp
    | error e =>
      by_cases hr : isRetryableError e = true
      · simpa [hr] using Nat.add_le_add_right (ih (attempt + 1)) 1
      · simp at hr
        simp [hr]

theorem withRetriesAux_exhaust {T : Type} (fn : Nat → Except JsError T)
    (err : Nat → JsError) :
    ∀ remaining attempt,
      (∀ k, attempt ≤ k → k ≤ attempt + remaining →
        fn k = Except.error (err k) ∧ isRetryableError (err k) = true) →
      withRetriesAux fn attempt remaining
        = (Except.error (err (attempt + remaining)), remaining + 1) := by
  intro remaining
  induction remaining with
  | zero =>
    intro attempt h
    have h0 := h attempt (le_refl _) (by omega)
    simp [withRetriesAux, h0.1]
  | succ r ih =>
    intro attempt h
    have h0 := h attempt (le_refl _) (by omega)
    have hrec := ih (attempt + 1) (fun k hk1 hk2 => h k (by omega) (by omega))
    have hx : attempt + 1 + r = attempt + (r + 1) := by omega
    unfold withRetriesAux
    rw [h0.1]
    simp [h0.2, hrec, hx]

/-- Claim C8: the retry executor classifies a failure as retryable exactly when
its HTTP status is in {408, 429, 500, 502, 503, 504}, or its error code is a
transport-level code, or it is an abort or generic "fetch failed" signal; a
non-retryable failure propagates immediately after a single call; a retried
call never runs more than N times; a retryable failure followed by a success
returns the success; exhausting all N attempts on retryable failures
propagates the last error; and the non-jittered backoff is
`base * 2 ^ (attempt - 1)` capped at the maximum delay. -/
theorem C8_retry_policy :
    (∀ e : JsError, isRetryableError e = true ↔
      ((∃ s, getStatusCode e = some s ∧ s ∈ retryableStatuses)
        ∨ (∃ c, getErrorCode e = some c ∧ c ∈ transportCodes)
        ∨ e.name = some "AbortError"
        ∨ (∃ m, e.message = some m ∧ strIncludes m "fetch failed" = true)))
    ∧ (∀ (T : Type) (fn : Nat → Except JsError T) (e : JsError) (n : Nat),
        fn 1 = Except.error e → isRetryableError e = false →
        withRetries fn n = (Except.error e, 1))
    ∧ (∀ (T : Type) (fn : Nat → Except JsError T) (n : Nat), 1 ≤ n →
        (withRetries fn n).2 ≤ n)
    ∧ (∀ (T : Type) (fn : Nat → Except JsError T) (e : JsError) (v : T) (n : Nat),
        2 ≤ n → fn 1 = Except.error e → isRetryableError e = true →
        fn 2 = Except.ok v → withRetries fn n = (Except.ok v, 2))
    ∧ (∀ (T : Type) (fn : Nat → Except JsError T) (err : Nat → JsError) (n : Nat),
        1 ≤ n →
        (∀ k, 1 ≤ k → k ≤ n → fn k = Except.error (err k) ∧ isRetryableError (err k) = true) →
        withRetries fn n = (Except.error (err n), n))
    ∧ (∀ base maxDelay attempt : Nat,
        backoffDelay base maxDelay attempt = min maxDelay (base * 2 ^ (attempt - 1))) := by
  refine ⟨?_, ?_, ?_, ?_, ?_, fun _ _ _ => rfl⟩
  · intro e
    unfold isRetryableError
    constructor
    · intro h
      simp only [Bool.or_eq_true] at h
      rcases h with ((h | h) | h) | h
      · left
        cases hs : getStatusCode e with
        | none => rw [hs] at h; exact absurd h (by simp)
        | some s =>
          rw [hs] at h
          simp only [Bool.and_eq_true, decide_eq_true_eq, List.elem_iff] at h
          exact ⟨s, rfl, by simpa using h.2⟩
      · right; left
        cases hc : getErrorCode e with
        | none => rw [hc] at h; exact absurd h (by simp)
        | some c =>
          rw [hc] at h
          simp only [Bool.and_eq_true, bne_iff_ne, List.elem_iff] at h
          exact ⟨c, rfl, by simpa using h.2⟩
      · right; right; left
        simpa using h
      · right; right; right
        cases hm : e.message with
        | none => rw [hm] at h; exact absurd h (by simp)
        | some m => rw [hm] at h; exact ⟨m, rfl, h⟩
    · intro h
      simp only [Bool.or_eq_true]
      rcases h with ⟨s, hs, hmem⟩ | ⟨c, hc, hmem⟩ | hn | ⟨m, hm, hinc⟩
      · left; left; left
        rw [hs]
        have hs0 : s ≠ 0 := by
          intro h0; rw [h0] at hmem; simp [retryableStatuses] at hmem
        simp only [Bool.and_eq_true, decide_eq_true_eq, List.elem_iff]
        exact ⟨hs0, by simpa using hmem⟩
      · left; left; right
        rw [hc]
        have hc0 : c ≠ "" := by
          intro h0; rw [h0] at hmem; simp [transportCodes] at hmem
        simp only [Bool.and_eq_true, bne_iff_ne, List.elem_iff]
        exact ⟨hc0, by simpa using hmem⟩
      · left; right
        simp [hn]
      · right
        rw [hm]; exact hinc
  · intro T fn e n hf hr
    exact withRetriesAux_not_retryable fn 1 (n - 1) e hf hr
  · intro T fn n hn
    have h := withRetriesAux_count_le fn (n - 1) 1
    unfold withRetries
    omega
  · intro T fn e v n hn hf hr hv
    unfold withRetries withRetriesAux
    rw [hf]
    have h2 : n - 1 = (n - 2) + 1 := by omega
    rw [h2]
    simp only [hr, if_true]
    have : withRetriesAux fn 2 (n - 2) = (Except.ok v, 1) := by
      cases h3 : n - 2 with
      | zero => simp [withRetriesAux, hv]
      | succ r => simp [withRetriesAux, hv]
    simp [this]
  · intro T fn err n hn h
    have := withRetriesAux_exhaust fn err (n - 1) 1
      (fun k hk1 hk2 => h k hk1 (by omega))
    unfold withRetries
    rw [this]
    have h1 : 1 + (n - 1) = n := by omega
    rw [h1]
    refine Prod.ext rfl ?_
    simp; omega

/-- Witness for C8: a 404 propagates immediately after one call; a 503 followed
by a 200-style success on attempt 2 (with attempts = 3) succeeds after exactly
two calls. -/
theorem C8_retry_policy_witness :
    withRetries (fun _ => (Except.error ⟨some 404, none, none, none, none, none⟩ : Except JsError Nat)) 3
      = (Except.error ⟨some 404, none, none, none, none, none⟩, 1)
    ∧ withRetries (fun k => if k = 1
          then (Except.error ⟨some 503, none, none, none, none, none⟩ : Except JsError Nat)
          else Except.ok 200) 3
      = (Except.ok 200, 2) :=
  ⟨C8_retry_policy.2.1 Nat (fun _ => Except.error ⟨some 404, none, none, none, none, none⟩)
      ⟨some 404, none, none, none, none, none⟩ 3 rfl (by decide),
   C8_retry_policy.2.2.2.1 Nat _ ⟨some 503, none, none, none, none, none⟩ 200 3
      (by norm_num) rfl (by decide) rfl⟩

/-! ### Response cache (`getCachedOrFetch` and `getUser` in `src/lib/github.ts`) -/

/-- One row of the `APICache` table: the stored (JSON round-tripped) payload
and its expiry timestamp (epoch ms). -/
structure CacheEntry (V : Type) where
  responseData : V
  expiresAt : Int
deriving DecidableEq, Repr

/-- The `APICache` table, keyed by its unique `cacheKey` column. -/
def CacheStore (V : Type) := List (String × CacheEntry V)

/-- `prisma.aPICache.findUnique({ where: { cacheKey } })`. -/
def cacheLookup {V : Type} (c : CacheStore V) (key : String) : Option (CacheEntry V) :=
  (c.find? (fun p => p.1 == key)).map Prod.snd

/-- `prisma.aPICache.upsert(...)`: create-or-replace at the unique key.  The
store is keyed by the unique `cacheKey` column, so only the key-to-entry map
matters; we keep the updated entry in front. -/
def cacheUpsert {V : Type} (c : CacheStore V) (key : String) (e : CacheEntry V) : CacheStore V :=
  (key, e) :: c.filter (fun p => p.1 != key)

/-- Observable side effects of one logical operation: a `waitIfNeeded` call on
the rate governor, the upstream network call, and the
`rateLimiter.updateFromHeaders` observation after a successful fetch. -/
inductive OpEvent
  | rateWait
  | upstreamFetch
  | observeHeaders
deriving DecidableEq, Repr

/-- `getCachedOrFetch(cacheKey, fetchFn, ttlSeconds)`: return a live cache
entry verbatim, otherwise run the fetch closure (whose side effects are
`fetchEvents`) and store the result with expiry `now + ttl * 1000`.  Returns
(value, new cache state, events emitted). -/
def getCachedOrFetch {V : Type} (c : CacheStore V) (key : String) (now ttl : Int)
    (fetchResult : V) (fetchEvents : List OpEvent) : V × CacheStore V × List OpEvent :=
  match cacheLookup c key with
  | some cached =>
    if cached.expiresAt > now then (cached.responseData, c, [])
    else (fetchResult, cacheUpsert c key ⟨fetchResult, now + ttl * 1000⟩, fetchEvents)
  | none => (fetchResult, cacheUpsert c key ⟨fetchResult, now + ttl * 1000⟩, fetchEvents)

/-- `CACHE_TTL.USER_PROFILE` (seconds). -/
def CACHE_TTL_USER_PROFILE : Int := 24 * 60 * 60

/-- `getUser(username)` from `src/lib/github.ts`: it first awaits
`rateLimiter.waitIfNeeded("rest")`, then calls `getCachedOrFetch` with key
`user:<username>`; the fetch closure performs the upstream call and then
observes the rate-limit headers. -/
def getUser {V : Type} (c : CacheStore V) (username : String) (now : Int)
    (fetchResult : V) : V × CacheStore V × List OpEvent :=
  let r := getCachedOrFetch c ("user:" ++ username) now CACHE_TTL_USER_PROFILE fetchResult
    [OpEvent.upstreamFetch, OpEvent.observeHeaders]
  (r.1, r.2.1, OpEvent.rateWait :: r.2.2)

/-- Counterexample to C5: with an unexpired cache entry for `user:alice`, the
operation returns the stored value with no upstream call, but its event trace
does contain a rate-governor interaction: `waitIfNeeded("rest")` runs before
the cache check, so "no rate-governor interaction" is false. -/
theorem C5_cache_hit_counterexample :
    cacheLookup ([("user:alice", CacheEntry.mk 42 100)] : CacheStore Nat) "user:alice"
        = some (CacheEntry.mk 42 100)
    ∧ (100 : Int) > 0
    ∧ (getUser ([("user:alice", CacheEntry.mk 42 100)] : CacheStore Nat) "alice" 0 7).1 = 42
    ∧ OpEvent.upstreamFetch
        ∉ (getUser ([("user:alice", CacheEntry.mk 42 100)] : CacheStore Nat) "alice" 0 7).2.2
    ∧ OpEvent.rateWait
        ∈ (getUser ([("user:alice", CacheEntry.mk 42 100)] : CacheStore Nat) "alice" 0 7).2.2 := by
  refine ⟨by decide, by decide, by decide, by decide, by decide⟩

/-- Claim C5 as amended: on an unexpired cache hit the operation returns the
stored value verbatim with no upstream call and no header observation — the
only side effect is the `waitIfNeeded` that precedes the cache check — and
two calls of the same operation within its TTL window make exactly one
upstream call and return identical payloads. -/
theorem C5_amended_cache_semantics (V : Type) :
    (∀ (c : CacheStore V) (username : String) (now : Int) (fetchResult : V) (e : CacheEntry V),
      cacheLookup c ("user:" ++ username) = some e → e.expiresAt > now →
      getUser c username now fetchResult = (e.responseData, c, [OpEvent.rateWait]))
    ∧ (∀ (c : CacheStore V) (username : String) (now1 now2 : Int) (f1 f2 : V),
      cacheLookup c ("user:" ++ username) = none →
      now2 < now1 + CACHE_TTL_USER_PROFILE * 1000 →
      (getUser (getUser c username now1 f1).2.1 username now2 f2).1
          = (getUser c username now1 f1).1
      ∧ ((getUser c username now1 f1).2.2.count OpEvent.upstreamFetch)
          + ((getUser (getUser c username now1 f1).2.1 username now2 f2).2.2.count
              OpEvent.upstreamFetch) = 1
      ∧ OpEvent.observeHeaders
          ∉ (getUser (getUser c username now1 f1).2.1 username now2 f2).2.2) := by
  constructor
  · intro c username now fetchResult e hhit hlive
    unfold getUser getCachedOrFetch
    rw [hhit]
    simp [hlive]
  · intro c username now1 now2 f1 f2 hmiss hwindow
    have h1 : getUser c username now1 f1
        = (f1, cacheUpsert c ("user:" ++ username) ⟨f1, now1 + CACHE_TTL_USER_PROFILE * 1000⟩,
            [OpEvent.rateWait, OpEvent.upstreamFetch, OpEvent.observeHeaders]) := by
      unfold getUser getCachedOrFetch
      rw [hmiss]
    have h2 : cacheLookup
        (cacheUpsert c ("user:" ++ username) ⟨f1, now1 + CACHE_TTL_USER_PROFILE * 1000⟩)
        ("user:" ++ username)
        = some ⟨f1, now1 + CACHE_TTL_USER_PROFILE * 1000⟩ := by
      unfold cacheLookup cacheUpsert
      simp
    have h3 : getUser (getUser c username now1 f1).2.1 username now2 f2
        = (f1, (getUser c username now1 f1).2.1, [OpEvent.rateWait]) := by
      rw [h1]
      unfold getUser getCachedOrFetch
      rw [h2]
      simp [hwindow]
    rw [h3, h1]
    refine ⟨rfl, rfl, by simp⟩

/-- Witness for the amended C5: a live entry for `user:alice` is returned
verbatim with only the pre-cache-check rate wait in the trace. -/
theorem C5_amended_cache_semantics_witness :
    getUser ([("user:alice", CacheEntry.mk 42 100)] : CacheStore Nat) "alice" 0 7
      = (42, [("user:alice", CacheEntry.mk 42 100)], [OpEvent.rateWait]) :=
  (C5_amended_cache_semantics Nat).1 [("user:alice", CacheEntry.mk 42 100)] "alice" 0 7
    (CacheEntry.mk 42 100) (by decide) (by decide)

/-! ### Panel aggregation (the metrics route: `percentile`, `computeQuantiles`,
`daysInMonthFromYm`, `userMonthlyContributions`) -/

/-- `percentile(sorted, p)` from the metrics route: clamp `p` to `[0,1]`, take
`k = (n - 1) * clamped`, `f = Math.floor(k)`, `c = Math.min(n - 1, f + 1)`;
return `sorted[f]` when `f === c`, else interpolate with `d = k - f`. -/
def percentile (sorted : List ℚ) (p : ℚ) : ℚ :=
  if sorted.length = 0 then 0
  else
    let clamped := min 1 (max 0 p)
    let k := ((sorted.length - 1 : ℕ) : ℚ) * clamped
    let f := ⌊k⌋
    let c := min ((sorted.length : ℤ) - 1) (f + 1)
    if f = c then sorted.getD f.toNat 0
    else
      let d := k - (f : ℚ)
      sorted.getD f.toNat 0 * (1 - d) + sorted.getD c.toNat 0 * d

/-- `computeQuantiles(activeValues, population)` from the metrics route:
`missing = max(0, population - activeValues.length)` zeros are prepended to
the ascending sort of the active values (`.sort((a, b) => a - b)`), then the
0.25 / 0.5 / 0.75 quantiles are interpolated. -/
def computeQuantiles (activeValues : List ℚ) (population : Nat) : ℚ × ℚ × ℚ :=
  let missing := population - activeValues.length
  let sorted := activeValues.mergeSort (fun a b => decide (a ≤ b))
  let padded := List.replicate missing 0 ++ sorted
  (percentile padded (1/4), percentile padded (1/2), percentile padded (3/4))

/-- The specification's interpolated-order-statistic method: on the sorted
array of length n, index `k = (n - 1) * q`, interpolating between `floor(k)`
and `ceil(k)`. -/
def specInterp (sorted : List ℚ) (q : ℚ) : ℚ :=
  if sorted.length = 0 then 0
  else
    let k := ((sorted.length - 1 : ℕ) : ℚ) * q
    let d := k - ((⌊k⌋ : ℤ) : ℚ)
    sorted.getD ⌊k⌋.toNat 0 * (1 - d) + sorted.getD ⌈k⌉.toNat 0 * d

/-- The specification's quantile for a tier: the active values zero-padded up
to the full cohort size, sorted ascending, then interpolated at `q`. -/
def specQuantile (values : List ℚ) (population : Nat) (q : ℚ) : ℚ :=
  specInterp ((values ++ List.replicate (population - values.length) 0).mergeSort
    (fun a b => decide (a ≤ b))) q

theorem mergeSortLE_sorted (l : List ℚ) :
    List.Sorted (· ≤ ·) (l.mergeSort (fun a b => decide (a ≤ b))) := by
  have h : List.Pairwise (fun a b : ℚ => (decide (a ≤ b)) = true)
      (l.mergeSort (fun a b => decide (a ≤ b))) :=
    List.sorted_mergeSort
      (by intro a b c h1 h2; simp only [decide_eq_true_eq] at h1 h2 ⊢; exact le_trans h1 h2)
      (by intro a b; simpa using le_total a b) l
  exact h.imp (fun hab => by simpa using hab)

theorem zero_pad_sort_eq (values : List ℚ) (m : Nat) (hpos : ∀ v ∈ values, 0 ≤ v) :
    List.replicate m 0 ++ values.mergeSort (fun a b => decide (a ≤ b))
      = (values ++ List.replicate m 0).mergeSort (fun a b => decide (a ≤ b)) := by
  refine List.eq_of_perm_of_sorted ?_ ?_ (mergeSortLE_sorted _)
  · have p1 : (List.replicate m (0 : ℚ) ++ values.mergeSort (fun a b => decide (a ≤ b))).Perm
        (List.replicate m 0 ++ values) :=
      (List.mergeSort_perm values _).append_left (List.replicate m 0)
    have p2 : (List.replicate m (0 : ℚ) ++ values).Perm (values ++ List.replicate m 0) :=
      List.perm_append_comm
    have p3 : (values ++ List.replicate m (0 : ℚ)).Perm
        ((values ++ List.replicate m 0).mergeSort (fun a b => decide (a ≤ b))) :=
      (List.mergeSort_perm _ _).symm
    exact (p1.trans p2).trans p3
  · refine (List.pairwise_append).mpr ⟨?_, mergeSortLE_sorted values, ?_⟩
    · exact List.pairwise_replicate.mpr (Or.inr (le_refl 0))
    · intro a ha b hb
      have ha0 : a = 0 := List.eq_of_mem_replicate ha
      have hbv : b ∈ values := ((List.mergeSort_perm values _).mem_iff).mp hb
      rw [ha0]
      exact hpos b hbv

theorem percentile_eq_specInterp (l : List ℚ) (q : ℚ) (h0 : 0 ≤ q) (h1 : q ≤ 1) :
    percentile l q = specInterp l q := by
  unfold percentile specInterp
  by_cases hn : l.length = 0
  · rw [if_pos hn, if_pos hn]
  · rw [if_neg hn, if_neg hn]
    dsimp only
    have hn1 : 1 ≤ l.length := Nat.one_le_iff_ne_zero.mpr hn
    have hclamp : min 1 (max 0 q) = q := by rw [max_eq_right h0, min_eq_right h1]
    rw [hclamp]
    set k : ℚ := ((l.length - 1 : ℕ) : ℚ) * q with hdefk
    have hk0 : 0 ≤ k := mul_nonneg (Nat.cast_nonneg _) h0
    have hkle : k ≤ ((l.length - 1 : ℕ) : ℚ) := by
      calc k ≤ ((l.length - 1 : ℕ) : ℚ) * 1 :=
            mul_le_mul_of_nonneg_left h1 (Nat.cast_nonneg _)
      _ = ((l.length - 1 : ℕ) : ℚ) := mul_one _
    have hf0 : 0 ≤ ⌊k⌋ := Int.floor_nonneg.mpr hk0
    have hfle : ⌊k⌋ ≤ ((l.length - 1 : ℕ) : ℤ) := by
      have h := Int.floor_le_floor hkle
      rwa [Int.floor_natCast] at h
    have hcast : ((l.length : ℤ) - 1) = ((l.length - 1 : ℕ) : ℤ) := by omega
    by_cases hfc : ⌊k⌋ = min ((l.length : ℤ) - 1) (⌊k⌋ + 1)
    · rw [if_pos hfc]
      have hfn : ⌊k⌋ = ((l.length - 1 : ℕ) : ℤ) := by omega
      have hkfix : k = ((⌊k⌋ : ℤ) : ℚ) := by
        refine le_antisymm ?_ (Int.floor_le k)
        rw [hfn]
        push_cast
        exact_mod_cast hkle
      have hd0 : k - ((⌊k⌋ : ℤ) : ℚ) = 0 := by rw [← hkfix]; ring
      rw [hd0]
      ring
    · rw [if_neg hfc]
      by_cases hki : k = ((⌊k⌋ : ℤ) : ℚ)
      · have hd0 : k - ((⌊k⌋ : ℤ) : ℚ) = 0 := sub_eq_zero.mpr hki
        rw [hd0]
        ring
      · have hflt : ((⌊k⌋ : ℤ) : ℚ) < k := lt_of_le_of_ne (Int.floor_le k) (fun h => hki h.symm)
        have hceil : ⌈k⌉ = ⌊k⌋ + 1 := by
          refine le_antisymm (Int.ceil_le_floor_add_one k) ?_
          have h2 : ((⌊k⌋ : ℤ) : ℚ) < ((⌈k⌉ : ℤ) : ℚ) := lt_of_lt_of_le hflt (Int.le_ceil k)
          have h3 : ⌊k⌋ < ⌈k⌉ := by exact_mod_cast h2
          omega
        have hmin : min ((l.length : ℤ) - 1) (⌊k⌋ + 1) = ⌊k⌋ + 1 := by
          rcases Nat.lt_or_ge ⌊k⌋.toNat (l.length - 1) with hlt | hge
          · omega
          · exfalso
            have hfeq : ⌊k⌋ = ((l.length - 1 : ℕ) : ℤ) := by omega
            have hkeq : k = ((⌊k⌋ : ℤ) : ℚ) := by
              refine le_antisymm ?_ (Int.floor_le k)
              rw [hfeq]
              push_cast
              exact_mod_cast hkle
            exact hki hkeq
        rw [hmin, hceil]

/-- Claim C3: per-tier quantiles are computed from the active per-user rates,
zero-padded with explicit zeros up to the full cohort size, sorted ascending,
and linearly interpolated at `k = (n - 1) * q` between `floor(k)` and
`ceil(k)`; in particular a 4-user tier with 2 inactive users has its median
taken over the 4-element array containing two zeros — for active rates `a, b`
it equals `min a b / 2`, not the median of the two active values. -/
theorem C3_percentile_zero_padding (activeValues : List ℚ) (population : Nat)
    (hpos : ∀ v ∈ activeValues, 0 ≤ v) :
    computeQuantiles activeValues population
      = (specQuantile activeValues population (1/4),
         specQuantile activeValues population (1/2),
         specQuantile activeValues population (3/4))
    ∧ ∀ a b : ℚ, 0 ≤ a → 0 ≤ b →
      (computeQuantiles [a, b] 4).2.1
          = percentile
              (List.replicate 2 0 ++ [a, b].mergeSort (fun x y => decide (x ≤ y))) (1/2)
        ∧ (computeQuantiles [a, b] 4).2.1 = min a b / 2 := by
  constructor
  · unfold computeQuantiles specQuantile
    rw [← zero_pad_sort_eq activeValues (population - activeValues.length) hpos]
    refine Prod.ext ?_ (Prod.ext ?_ ?_)
    · exact percentile_eq_specInterp _ _ (by norm_num) (by norm_num)
    · exact percentile_eq_specInterp _ _ (by norm_num) (by norm_num)
    · exact percentile_eq_specInterp _ _ (by norm_num) (by norm_num)
  · intro a b ha hb
    refine ⟨rfl, ?_⟩
    have hfour : ∀ w x y z : ℚ, percentile [w, x, y, z] (1/2) = x / 2 + y / 2 := by
      intro w x y z
      unfold percentile
      dsimp only
      norm_num
      simp only [show Int.toNat 2 = 2 from rfl, List.getElem_cons_succ,
        List.getElem_cons_zero]
      ring
    by_cases hab : a ≤ b
    · have hsort : [a, b].mergeSort (fun x y => decide (x ≤ y)) = [a, b] :=
        List.mergeSort_of_sorted (by simp [hab])
      have : (computeQuantiles [a, b] 4).2.1 = percentile [0, 0, a, b] (1/2) := by
        unfold computeQuantiles
        rw [hsort]
        rfl
      rw [this, hfour, min_eq_left hab]
      ring
    · have hba : b ≤ a := le_of_not_le hab
      have hsort : [a, b].mergeSort (fun x y => decide (x ≤ y)) = [b, a] := by
        refine List.eq_of_perm_of_sorted ?_ (mergeSortLE_sorted _) (by simp [hba])
        exact (List.mergeSort_perm _ _).trans (List.Perm.swap b a [])
      have : (computeQuantiles [a, b] 4).2.1 = percentile [0, 0, b, a] (1/2) := by
        unfold computeQuantiles
        rw [hsort]
        rfl
      rw [this, hfour, min_eq_right hba]
      ring

/-- Witness for C3: with active rates 3 and 1 in a 4-user tier, the median is
`min 3 1 / 2 = 1/2`, the median of `[0, 0, 1, 3]`. -/
theorem C3_percentile_zero_padding_witness :
    (computeQuantiles [3, 1] 4).2.1 = min 3 1 / 2 :=
  ((C3_percentile_zero_padding [3, 1] 4
      (by intro v hv; simp at hv; rcases hv with h | h <;> rw [h] <;> norm_num)).2
    3 1 (by norm_num) (by norm_num)).2

/-- A calendar month, the `'%Y-%m'` grouping key of the aggregation queries. -/
structure Ym where
  y : Nat
  m : Nat
deriving DecidableEq, Repr

/-- One stored `UserContributionMetrics` row, as seen by the monthly
aggregation: its month bucket, day of month, user and count (only days with
positive counts are stored). -/
structure ContributionRow where
  ym : Ym
  day : Nat
  userId : String
  contributionCount : Nat
deriving DecidableEq, Repr

/-- The `SUM(contributionCount) ... GROUP BY ym` query restricted to one
month: the total of stored counts in that month. -/
def monthTotal (rows : List ContributionRow) (ym : Ym) : Nat :=
  ((rows.filter (fun r => r.ym == ym)).map (fun r => r.contributionCount)).sum

/-- The Gregorian leap-year rule used by ECMAScript time values. -/
def isLeapYear (y : Nat) : Bool :=
  (y % 4 == 0 && y % 100 != 0) || y % 400 == 0

/-- `daysInMonthFromYm(ym)`: `new Date(Date.UTC(y, m, 0)).getUTCDate()` is the
day count of the (1-based) month `m` of year `y` in the proleptic Gregorian
calendar that ECMAScript time values implement. -/
def daysInMonthFromYm (ym : Ym) : Nat :=
  if ym.m == 2 then (if isLeapYear ym.y then 29 else 28)
  else if ym.m == 4 || ym.m == 6 || ym.m == 9 || ym.m == 11 then 30
  else 31

/-- The `value` field of one `userMonthlyContributions` entry:
`userCount > 0 && days > 0 ? total / (userCount * days) : 0`, where
`userCount` is the full cohort size (`prisma.sampledUser.count()`), not the
number of active users. -/
def userMonthlyValue (rows : List ContributionRow) (ym : Ym) (userCount : Nat) : ℚ :=
  if 0 < userCount ∧ 0 < daysInMonthFromYm ym then
    (monthTotal rows ym : ℚ) / ((userCount : ℚ) * (daysInMonthFromYm ym : ℚ))
  else 0

theorem daysInMonthFromYm_pos (ym : Ym) : 0 < daysInMonthFromYm ym := by
  unfold daysInMonthFromYm
  split
  · split <;> norm_num
  · split <;> norm_num

/-- Claim C4: the monthly contributions-per-user-per-day rate is
`totalContributions / (userCount * daysInMonth)` with the full cohort size in
the denominator and the calendar-correct day count; a user with stored rows
only on days 5 and 12 (counts 3 and 7) of the 30-day month 2023-04, with
cohort size 1, yields `10/30`. -/
theorem C4_monthly_rate (rows : List ContributionRow) (ym : Ym) (userCount : Nat)
    (hu : 0 < userCount) :
    userMonthlyValue rows ym userCount
      = (monthTotal rows ym : ℚ) / ((userCount : ℚ) * (daysInMonthFromYm ym : ℚ))
    ∧ daysInMonthFromYm ⟨2023, 4⟩ = 30
    ∧ daysInMonthFromYm ⟨2024, 2⟩ = 29
    ∧ daysInMonthFromYm ⟨2023, 2⟩ = 28
    ∧ daysInMonthFromYm ⟨2023, 12⟩ = 31
    ∧ monthTotal [⟨⟨2023, 4⟩, 5, "u1", 3⟩, ⟨⟨2023, 4⟩, 12, "u1", 7⟩] ⟨2023, 4⟩ = 10
    ∧ userMonthlyValue [⟨⟨2023, 4⟩, 5, "u1", 3⟩, ⟨⟨2023, 4⟩, 12, "u1", 7⟩] ⟨2023, 4⟩ 1
        = 10 / 30 := by
  refine ⟨?_, by decide, by decide, by decide, by decide, by decide, ?_⟩
  · rw [userMonthlyValue, if_pos ⟨hu, daysInMonthFromYm_pos ym⟩]
  · rw [userMonthlyValue, if_pos ⟨by norm_num, daysInMonthFromYm_pos _⟩]
    norm_num [monthTotal, daysInMonthFromYm, isLeapYear]

/-- Witness for C4: the rate formula applied at cohort size 1 for 2023-04. -/
theorem C4_monthly_rate_witness :
    userMonthlyValue [] ⟨2023, 4⟩ 1
      = (monthTotal [] ⟨2023, 4⟩ : ℚ) / (((1 : Nat) : ℚ) * (daysInMonthFromYm ⟨2023, 4⟩ : ℚ)) :=
  (C4_monthly_rate [] ⟨2023, 4⟩ 1 (by norm_num)).1

/-! ### Per-user onboarding and the baseline gate (`upsertUser` in
`src/app/api/sync/route.ts`) -/

/-- A `SampledUser` row, restricted to the fields onboarding touches. -/
structure UserRow where
  id : String
  githubId : Nat
  username : String
  tier : String
  totalContributions : Nat
  baselineContributions : Nat
deriving DecidableEq, Repr

/-- A `UserContributionMetrics` row: id `<userId>:<date>`, unique on
`(date, userId)`. -/
structure MetricRow where
  id : String
  date : String
  userId : String
  contributionCount : Nat
deriving DecidableEq, Repr

/-- The store as onboarding sees it: user rows and daily contribution rows. -/
structure Db where
  users : List UserRow
  metrics : List MetricRow
deriving DecidableEq, Repr

/-- `prisma.sampledUser.upsert({ where: { githubId } })`: update the existing
row (tier and profile counters; identity fields kept) or create a fresh row
with the generated id `freshId`.  Returns the store and the row id used. -/
def upsertSampledUser (db : Db) (githubId : Nat) (username tier freshId : String) :
    Db × String :=
  match db.users.find? (fun u => u.githubId == githubId) with
  | some u =>
    ({ db with
        users := db.users.map
          (fun v => if v.githubId == githubId then { v with tier := tier } else v) },
      u.id)
  | none =>
    ({ db with
        users := db.users ++
          [{ id := freshId, githubId := githubId, username := username, tier := tier,
             totalContributions := 0, baselineContributions := 0 }] },
      freshId)

/-- One row upsert of `upsertUserContributionMetricsBatch`:
`ON CONFLICT(date, userId) DO UPDATE SET contributionCount = excluded...`.
The table is unique on `(date, userId)`, so the conflict branch touches the
single existing row at that key. -/
def upsertMetricRow (ms : List MetricRow) (r : MetricRow) : List MetricRow :=
  if ms.any (fun m => m.date == r.date && m.userId == r.userId) then
    ms.map (fun m => if m.date == r.date && m.userId == r.userId then
      { m with contributionCount := r.contributionCount } else m)
  else ms ++ [r]

/-- `upsertUserContributionMetricsBatch(rows)`: the multi-VALUES insert with
per-row conflict handling; the caller's chunking into batches of 200 does not
change the resulting store, so the rows are folded directly. -/
def upsertUserContributionMetricsBatch (ms : List MetricRow) (rows : List MetricRow) :
    List MetricRow :=
  rows.foldl upsertMetricRow ms

/-- Modelled from the spec: the Prisma schema declaring
`UserContributionMetrics.userId` is not under src/ (only the migration files
for the other metric tables are, all with `ON DELETE CASCADE` to their parent
rows); per the spec, deleting the user row cascade-deletes any partially
written daily contribution rows, so `prisma.sampledUser.delete` removes the
user row and every daily row carrying that `userId`. -/
def deleteUserCascade (db : Db) (userId : String) : Db :=
  { users := db.users.filter (fun u => u.id != userId)
    metrics := db.metrics.filter (fun m => m.userId != userId) }

/-- One day of the upstream contribution calendar. -/
structure CalendarDay where
  date : String
  contributionCount : Nat
deriving DecidableEq, Repr

/-- The daily rows `collectYear` builds for one fetched year: days with a
positive count become `(id = "<userId>:<date>", date, userId, count)` rows. -/
def collectYearRows (uid : String) (days : List CalendarDay) : List MetricRow :=
  (days.filter (fun d => 0 < d.contributionCount)).map
    (fun d => { id := uid ++ ":" ++ d.date, date := d.date, userId := uid,
                contributionCount := d.contributionCount })

/-- The contribution total `collectYear` adds for one fetched year. -/
def yearTotal (days : List CalendarDay) : Nat :=
  ((days.filter (fun d => 0 < d.contributionCount)).map
    (fun d => d.contributionCount)).sum

/-- `BASELINE_YEARS` (`[2020, 2021] as const`). -/
def BASELINE_YEARS : List Nat := [2020, 2021]

/-- `years.filter((y) => !baselineYears.has(y))` for `years = [2020..2025]`. -/
def POST_YEARS : List Nat := [2022, 2023, 2024, 2025]

/-- One `collectYear(year)` call folded into the accumulator
(store, running total, failed flag): a year starting after `now` is skipped;
a thrown fetch sets the failed flag (for baseline years) and writes nothing;
a successful fetch bulk-upserts the year's positive daily rows and adds the
year's total. -/
def collectYearStep (uid : String) (fetchYear : Nat → Option (List CalendarDay))
    (nowYear : Nat) (acc : Db × Nat × Bool) (year : Nat) : Db × Nat × Bool :=
  if nowYear < year then acc
  else
    match fetchYear year with
    | none => (acc.1, acc.2.1, true)
    | some days =>
      ({ acc.1 with metrics :=
          upsertUserContributionMetricsBatch acc.1.metrics (collectYearRows uid days) },
       acc.2.1 + yearTotal days, acc.2.2)

/-- The baseline phase of `upsertUser`: fold `collectYear` over the baseline
years, accumulating `baselineContributions` and `baselineFetchFailed`. -/
def onboardBaseline (uid : String) (fetchYear : Nat → Option (List CalendarDay))
    (nowYear : Nat) (db : Db) : Db × Nat × Bool :=
  BASELINE_YEARS.foldl (collectYearStep uid fetchYear nowYear) (db, 0, false)

/-- The post-baseline phase: the same `collectYear`, its failures logged and
ignored (the failed flag of the step is discarded). -/
def onboardPost (uid : String) (fetchYear : Nat → Option (List CalendarDay))
    (nowYear : Nat) (db : Db) (startTotal : Nat) : Db × Nat :=
  let r := POST_YEARS.foldl (collectYearStep uid fetchYear nowYear) (db, startTotal, false)
  (r.1, r.2.1)

/-- The final `prisma.sampledUser.update` writing the rolling totals. -/
def setUserTotals (db : Db) (uid : String) (total baseline : Nat) : Db :=
  { db with users := db.users.map (fun u =>
      if u.id == uid then
        { u with totalContributions := total, baselineContributions := baseline } else u) }

/-- The profile fields `upsertUser` inspects. -/
structure UserDetails where
  type : String
  public_repos : Nat
  followers : Nat
deriving DecidableEq, Repr

/-- `searchResult.login.endsWith("[bot]")`, on the login's character list. -/
def loginIsBot (login : String) : Bool :=
  "[bot]".data.isSuffixOf login.data

/-- `upsertUser(searchResult, tier)` from `src/app/api/sync/route.ts`:
profile-fetch failure or an org/bot login creates nothing; otherwise the user
row is upserted, the baseline years are collected, and the gate
(`baselineFetchFailed || baselineContributions < BASELINE_MIN_CONTRIBUTIONS`)
either deletes the user row (cascading to daily rows) and reports
non-inclusion, or proceeds with the post years and the totals update.
`profile` is the outcome of `getUser(login)` (`none` models a thrown fetch);
`fetchYear` the outcome of `getUserContributions` per year; `nowYear` the
current year (later years are skipped); `minBaseline` the configured
threshold (default 50). -/
def upsertUser (db : Db) (searchId : Nat) (login tier freshId : String)
    (profile : Option UserDetails) (fetchYear : Nat → Option (List CalendarDay))
    (nowYear minBaseline : Nat) : Bool × Db :=
  match profile with
  | none => (false, db)
  | some details =>
    if details.type != "User" || loginIsBot login then (false, db)
    else
      let up := upsertSampledUser db searchId login tier freshId
      let scan := onboardBaseline up.2 fetchYear nowYear up.1
      if scan.2.2 = true ∨ scan.2.1 < minBaseline then
        (false, deleteUserCascade scan.1 up.2)
      else
        let post := onboardPost up.2 fetchYear nowYear scan.1 scan.2.1
        (true, setUserTotals post.1 up.2 post.2 scan.2.1)

theorem collectYearStep_users (uid : String) (fetchYear : Nat → Option (List CalendarDay))
    (nowYear : Nat) (acc : Db × Nat × Bool) (year : Nat) :
    (collectYearStep uid fetchYear nowYear acc year).1.users = acc.1.users := by
  unfold collectYearStep
  split
  · rfl
  · split <;> rfl

theorem onboardBaseline_users (uid : String) (fetchYear : Nat → Option (List CalendarDay))
    (nowYear : Nat) (db : Db) :
    (onboardBaseline uid fetchYear nowYear db).1.users = db.users := by
  unfold onboardBaseline BASELINE_YEARS
  simp only [List.foldl]
  rw [collectYearStep_users, collectYearStep_users]

theorem collectYearStep_failed_iff (uid : String)
    (fetchYear : Nat → Option (List CalendarDay)) (nowYear : Nat)
    (acc : Db × Nat × Bool) (year : Nat) :
    ((collectYearStep uid fetchYear nowYear acc year).2.2 = true
      ↔ (acc.2.2 = true ∨ (year ≤ nowYear ∧ fetchYear year = none))) := by
  unfold collectYearStep
  by_cases hy : nowYear < year
  · rw [if_pos hy]
    constructor
    · exact fun h => Or.inl h
    · rintro (h | ⟨h1, h2⟩)
      · exact h
      · omega
  · rw [if_neg hy]
    cases hf : fetchYear year with
    | none =>
      simp [hf]
      exact Or.inr (by omega)
    | some days =>
      simp [hf]

theorem onboardBaseline_failed_iff (uid : String)
    (fetchYear : Nat → Option (List CalendarDay)) (nowYear : Nat) (db : Db) :
    (onboardBaseline uid fetchYear nowYear db).2.2 = true
      ↔ ∃ y ∈ BASELINE_YEARS, y ≤ nowYear ∧ fetchYear y = none := by
  unfold onboardBaseline BASELINE_YEARS
  simp only [List.foldl]
  rw [collectYearStep_failed_iff, collectYearStep_failed_iff]
  simp only [List.mem_cons, List.not_mem_nil]
  constructor
  · rintro ((h | h) | h)
    · exact absurd h (by simp)
    · exact ⟨2020, by simp, h⟩
    · exact ⟨2021, by simp, h⟩
  · rintro ⟨y, hy, hcond⟩
    rcases hy with h | h | h
    · subst h; exact Or.inl (Or.inr hcond)
    · subst h; exact Or.inr hcond
    · simp at h

theorem upsertSampledUser_mem_id (db : Db) (searchId : Nat) (login tier freshId : String)
    (huniq : ∀ u ∈ db.users, ∀ v ∈ db.users,
      u.githubId = searchId → v.githubId = searchId → u = v) :
    ∀ u ∈ (upsertSampledUser db searchId login tier freshId).1.users,
      u.githubId = searchId → u.id = (upsertSampledUser db searchId login tier freshId).2 := by
  unfold upsertSampledUser
  cases hfind : db.users.find? (fun u => u.githubId == searchId) with
  | some u0 =>
    simp only
    intro u hu hgid
    rcases List.mem_map.mp hu with ⟨v, hv, hveq⟩
    have hu0mem : u0 ∈ db.users := List.mem_of_find?_eq_some hfind
    have hu0gid : u0.githubId = searchId := by
      have h := List.find?_some hfind
      simpa using h
    by_cases hvid : v.githubId = searchId
    · have hv0 : v = u0 := huniq v hv u0 hu0mem hvid hu0gid
      rw [if_pos (by simpa using hvid)] at hveq
      rw [← hveq, hv0]
    · rw [if_neg (by simpa using hvid)] at hveq
      rw [← hveq] at hgid
      exact absurd hgid hvid
  | none =>
    simp only
    intro u hu hgid
    rcases List.mem_append.mp hu with hmem | hmem
    · have h := List.find?_eq_none.mp hfind u hmem
      simp [hgid] at h
    · simp only [List.mem_singleton] at hmem
      rw [hmem]

/-- Claim C2: if the profile passes the org/bot screen but any baseline-year
(2020/2021) fetch fails, or the accumulated baseline total is below the
configured threshold, then onboarding reports non-inclusion and the user's
row is deleted entirely — no row with this platform id and no daily
contribution row of this user persists; the failed flag is set exactly when
some baseline year (not in the future) has a failed fetch.  The uniqueness
hypothesis mirrors the store's unique `githubId` index. -/
theorem C2_baseline_gate (db : Db) (searchId : Nat) (login tier freshId : String)
    (details : UserDetails) (fetchYear : Nat → Option (List CalendarDay))
    (nowYear minBaseline : Nat)
    (htype : details.type = "User") (hbot : loginIsBot login = false)
    (huniq : ∀ u ∈ db.users, ∀ v ∈ db.users,
      u.githubId = searchId → v.githubId = searchId → u = v)
    (hgate : (onboardBaseline (upsertSampledUser db searchId login tier freshId).2 fetchYear
          nowYear (upsertSampledUser db searchId login tier freshId).1).2.2 = true
      ∨ (onboardBaseline (upsertSampledUser db searchId login tier freshId).2 fetchYear
          nowYear (upsertSampledUser db searchId login tier freshId).1).2.1 < minBaseline) :
    (upsertUser db searchId login tier freshId (some details) fetchYear
        nowYear minBaseline).1 = false
    ∧ (∀ u ∈ (upsertUser db searchId login tier freshId (some details) fetchYear
        nowYear minBaseline).2.users, u.githubId ≠ searchId)
    ∧ (∀ m ∈ (upsertUser db searchId login tier freshId (some details) fetchYear
        nowYear minBaseline).2.metrics,
        m.userId ≠ (upsertSampledUser db searchId login tier freshId).2)
    ∧ ((onboardBaseline (upsertSampledUser db searchId login tier freshId).2 fetchYear
          nowYear (upsertSampledUser db searchId login tier freshId).1).2.2 = true
      ↔ ∃ y ∈ BASELINE_YEARS, y ≤ nowYear ∧ fetchYear y = none) := by
  have hresult : upsertUser db searchId login tier freshId (some details) fetchYear
      nowYear minBaseline
      = (false, deleteUserCascade
          (onboardBaseline (upsertSampledUser db searchId login tier freshId).2 fetchYear
            nowYear (upsertSampledUser db searchId login tier freshId).1).1
          (upsertSampledUser db searchId login tier freshId).2) := by
    unfold upsertUser
    dsimp only
    rw [htype, hbot]
    rw [if_neg (by simp)]
    rw [if_pos hgate]
  refine ⟨by rw [hresult], ?_, ?_, onboardBaseline_failed_iff _ _ _ _⟩
  · intro u hu
    rw [hresult] at hu
    unfold deleteUserCascade at hu
    simp only [List.mem_filter, bne_iff_ne, decide_eq_true_eq] at hu
    rcases hu with ⟨humem, huid⟩
    rw [onboardBaseline_users] at humem
    intro hgid
    exact huid (upsertSampledUser_mem_id db searchId login tier freshId huniq
      u humem hgid)
  · intro m hm
    rw [hresult] at hm
    unfold deleteUserCascade at hm
    simp only [List.mem_filter, bne_iff_ne, decide_eq_true_eq] at hm
    exact hm.2

/-- Witness for C2: an empty store, a valid "alice" profile, and a fetch that
throws for every year — the gate fails and onboarding reports non-inclusion
with an empty store. -/
theorem C2_baseline_gate_witness :
    (upsertUser ⟨[], []⟩ 1 "alice" "casual" "u1" (some ⟨"User", 0, 0⟩)
      (fun _ => none) 2025 50).1 = false :=
  (C2_baseline_gate ⟨[], []⟩ 1 "alice" "casual" "u1" ⟨"User", 0, 0⟩ (fun _ => none) 2025 50
    rfl (by decide) (by intro u hu; simp at hu)
    (Or.inl (by decide))).1

/-! ### Repo flow metrics (`processRepoStats` and `processRepoPRs` in
`src/app/api/sync/route.ts`) -/

/-- One `map.set(k, v)` of a JavaScript `Map` with keys of type `K`:
a repeated key keeps its position and takes the new value, a fresh key is
appended (insertion order is iteration order). -/
def assocSet {K B : Type} [BEq K] (m : List (K × B)) (k : K) (v : B) : List (K × B) :=
  if m.any (fun p => p.1 == k) then m.map (fun p => if p.1 == k then (k, v) else p)
  else m ++ [(k, v)]

/-- `map.get(k)`. -/
def assocGet {K B : Type} [BEq K] (m : List (K × B)) (k : K) : Option B :=
  (m.find? (fun p => p.1 == k)).map Prod.snd

/-- One week bucket of the contributor-stats payload; every field may be
absent (`w` unix-week seconds, `a` additions, `d` deletions, `c` commits). -/
structure ContributorWeek where
  w : Option Nat
  a : Option Int
  d : Option Int
  c : Option Int
deriving DecidableEq, Repr

/-- One contributor of the stats payload (`author` may be null). -/
structure ContributorStat where
  authorId : Option Nat
  weeks : List ContributorWeek
deriving DecidableEq, Repr

/-- The per-week accumulator of `processRepoStats`. -/
structure WeekTotals where
  commits : Int
  added : Int
  removed : Int
deriving DecidableEq, Repr

/-- The inner loop body of `processRepoStats`: skip weeks with falsy `w`
(absent or 0) or falsy/zero `c`, then accumulate `c`/`a`/`d` (each
defaulted to 0) into the week map at key `w`. -/
def weekMapAdd (m : List (Nat × WeekTotals)) (wk : ContributorWeek) :
    List (Nat × WeekTotals) :=
  if wk.w.getD 0 == 0 then m
  else if wk.c.getD 0 == 0 then m
  else
    let key := wk.w.getD 0
    let existing := (assocGet m key).getD ⟨0, 0, 0⟩
    assocSet m key
      ⟨existing.commits + wk.c.getD 0, existing.added + wk.a.getD 0,
       existing.removed + wk.d.getD 0⟩

/-- The `weekMap` of `processRepoStats`: contributors without an author are
skipped; every kept week accumulates into the shared map. -/
def buildWeekMap (stats : List ContributorStat) : List (Nat × WeekTotals) :=
  stats.foldl (fun m contributor =>
    match contributor.authorId with
    | none => m
    | some _ => contributor.weeks.foldl weekMapAdd m) []

/-- `Array.from(weekMap.entries()).sort((a, b) => a[0] - b[0])`. -/
def sortedWeeks (stats : List ContributorStat) : List (Nat × WeekTotals) :=
  (buildWeekMap stats).mergeSort (fun p q => decide (p.1 ≤ q.1))

/-- A `CommitMetrics` row at repo level (`userId` null): keyed by
`(date, repoId, language)` under the table's unique index; `date` is
`new Date(weekTs * 1000)` in epoch ms. -/
structure CommitRow where
  date : Int
  repoId : String
  language : String
  commitCount : Int
  linesAdded : Int
  linesRemoved : Int
deriving DecidableEq, Repr

/-- The `findFirst` criterion of the commit upsert loop. -/
def commitKeyMatch (repoId language : String) (date : Int) (r : CommitRow) : Bool :=
  r.date == date && r.repoId == repoId && r.language == language

/-- One iteration of the upsert loop of `processRepoStats`: if a row exists at
`(weekTs * 1000, repoId, language)` its counters are SET to the newly
computed totals (`prisma...update` writes `commitCount: totals.commits`
etc., not an increment); otherwise a row is created.  The table's unique
index guarantees at most one matching row, so updating every match models
the by-id update of the single found row. -/
def processStatsStep (repoId language : String) (rows : List CommitRow)
    (entry : Nat × WeekTotals) : List CommitRow :=
  let date : Int := (entry.1 : Int) * 1000
  if rows.any (commitKeyMatch repoId language date) then
    rows.map (fun r => if commitKeyMatch repoId language date r then
      { r with commitCount := entry.2.commits, linesAdded := entry.2.added,
               linesRemoved := entry.2.removed } else r)
  else
    rows ++ [⟨date, repoId, language, entry.2.commits, entry.2.added, entry.2.removed⟩]

/-- `processRepoStats(repoGithubId, stats)` acting on the commit-metrics
store of one repo (already looked up, with its `primaryLanguage`). -/
def processRepoStats (rows : List CommitRow) (repoId language : String)
    (stats : List ContributorStat) : List CommitRow :=
  (sortedWeeks stats).foldl (processStatsStep repoId language) rows

/-- One pull request of the paged PR fetch (timestamps as epoch ms;
`created_at` is always present — `fetchPagedPRs` drops entries without it). -/
structure RepoPullRequest where
  created_at : Int
  closed_at : Option Int
  merged_at : Option Int
deriving DecidableEq, Repr

/-- `normalizeToDay`: `setUTCHours(0, 0, 0, 0)`, the start of the UTC
calendar day (floor division by 86400000 ms). -/
def normalizeToDay (ms : Int) : Int := 86400000 * Int.fdiv ms 86400000

/-- The per-day accumulator (`PRDayAggregate`) of `processRepoPRs`. -/
structure PRDayAggregate where
  opened : Int
  closed : Int
  merged : Int
  mergeHoursTotal : ℚ
  mergeCount : Int
deriving DecidableEq, Repr

/-- `addToDay(dateStr, fn)`: bucket at the UTC day of the timestamp (absent
timestamps are ignored) and apply the mutation to that day's aggregate. -/
def prAddToDay (m : List (Int × PRDayAggregate)) (msOpt : Option Int)
    (f : PRDayAggregate → PRDayAggregate) : List (Int × PRDayAggregate) :=
  match msOpt with
  | none => m
  | some ms =>
    let key := normalizeToDay ms
    let entry := (assocGet m key).getD ⟨0, 0, 0, 0, 0⟩
    assocSet m key (f entry)

/-- The `dayMap` of `processRepoPRs`: each PR adds an open event at its
creation day, a close event at its close day, and a merge event (with the
creation-to-merge latency in hours) at its merge day. -/
def buildPRDayMap (prs : List RepoPullRequest) : List (Int × PRDayAggregate) :=
  prs.foldl (fun m pr =>
    let m1 := prAddToDay m (some pr.created_at) (fun e => { e with opened := e.opened + 1 })
    let m2 := prAddToDay m1 pr.closed_at (fun e => { e with closed := e.closed + 1 })
    match pr.merged_at with
    | none => m2
    | some mergedAt =>
      prAddToDay m2 (some mergedAt) (fun e =>
        { e with merged := e.merged + 1,
                 mergeHoursTotal := e.mergeHoursTotal
                   + ((mergedAt - pr.created_at : Int) : ℚ) / 3600000,
                 mergeCount := e.mergeCount + 1 })) []

/-- A `PRMetrics` day row at repo level, keyed by `(date, repoId, language)`. -/
structure PRRow where
  date : Int
  repoId : String
  language : String
  prsOpened : Int
  prsClosed : Int
  prsMerged : Int
  avgTimeToMergeHrs : Option ℚ
deriving DecidableEq, Repr

/-- The `findFirst` criterion of the PR upsert loop. -/
def prKeyMatch (repoId language : String) (date : Int) (r : PRRow) : Bool :=
  r.date == date && r.repoId == repoId && r.language == language

/-- One iteration of the upsert loop of `processRepoPRs`: the day row at the
key is replaced wholesale with the newly computed aggregate (or created). -/
def processPRsStep (repoId language : String) (rows : List PRRow)
    (entry : Int × PRDayAggregate) : List PRRow :=
  let avg : Option ℚ :=
    if 0 < entry.2.mergeCount then some (entry.2.mergeHoursTotal / (entry.2.mergeCount : ℚ))
    else none
  if rows.any (prKeyMatch repoId language entry.1) then
    rows.map (fun r => if prKeyMatch repoId language entry.1 r then
      { r with prsOpened := entry.2.opened, prsClosed := entry.2.closed,
               prsMerged := entry.2.merged, avgTimeToMergeHrs := avg } else r)
  else
    rows ++ [⟨entry.1, repoId, language, entry.2.opened, entry.2.closed, entry.2.merged, avg⟩]

/-- `processRepoPRs(repoGithubId, prs)` acting on the PR-metrics store of one
repo. -/
def processRepoPRs (rows : List PRRow) (repoId language : String)
    (prs : List RepoPullRequest) : List PRRow :=
  (buildPRDayMap prs).foldl (processPRsStep repoId language) rows

/-- Counterexample to C6: a commit row at week 1 (date 1000 ms) holding
`(commitCount, linesAdded, linesRemoved) = (5, 10, 20)` is processed against
a contributor-stats week with `(c, a, d) = (3, 2, 1)` at the same key; the
stored row becomes `(3, 2, 1)` — the newly computed totals — not the
incremented `(8, 12, 21)` the claim requires. -/
theorem C6_commit_increment_counterexample :
    processRepoStats [⟨1000, "r", "TypeScript", 5, 10, 20⟩] "r" "TypeScript"
        [⟨some 7, [⟨some 1, some 2, some 1, some 3⟩]⟩]
      = [⟨1000, "r", "TypeScript", 3, 2, 1⟩]
    ∧ ¬ (processRepoStats [⟨1000, "r", "TypeScript", 5, 10, 20⟩] "r" "TypeScript"
        [⟨some 7, [⟨some 1, some 2, some 1, some 3⟩]⟩]
      = [⟨1000, "r", "TypeScript", 5 + 3, 10 + 2, 20 + 1⟩]) := by
  have hsw : sortedWeeks [⟨some 7, [⟨some 1, some 2, some 1, some 3⟩]⟩]
      = [(1, ⟨3, 2, 1⟩)] := by
    unfold sortedWeeks
    rw [show buildWeekMap [⟨some 7, [⟨some 1, some 2, some 1, some 3⟩]⟩]
        = [(1, ⟨3, 2, 1⟩)] from by decide]
    simp [List.mergeSort_singleton]
  constructor
  · unfold processRepoStats
    rw [hsw]
    decide
  · unfold processRepoStats
    rw [hsw]
    decide

theorem foldl_preserve {A B : Type} (P : A → Prop) (f : A → B → A)
    (hf : ∀ a b, P a → P (f a b)) :
    ∀ (l : List B) (a : A), P a → P (l.foldl f a) := by
  intro l
  induction l with
  | nil => intro a ha; exact ha
  | cons b t ih => intro a ha; exact ih _ (hf a b ha)

theorem assocSet_keys_nodup {K B : Type} [BEq K] [LawfulBEq K] (m : List (K × B))
    (k : K) (v : B) (h : (m.map Prod.fst).Nodup) :
    ((assocSet m k v).map Prod.fst).Nodup := by
  unfold assocSet
  by_cases hany : m.any (fun p => p.1 == k) = true
  · rw [if_pos hany]
    have hkeys : (m.map (fun p => if p.1 == k then (k, v) else p)).map Prod.fst
        = m.map Prod.fst := by
      rw [List.map_map]
      apply List.map_congr_left
      intro p hp
      by_cases hpk : p.1 == k
      · simp only [Function.comp, hpk, if_true]
        exact (eq_of_beq hpk).symm
      · simp [Function.comp, hpk]
    rw [hkeys]
    exact h
  · rw [if_neg hany, List.map_append, List.nodup_append]
    refine ⟨h, by simp, ?_⟩
    intro a ha hb
    simp only [List.map_cons, List.map_nil, List.mem_singleton] at hb
    rcases List.mem_map.mp ha with ⟨p, hp, hfst⟩
    apply hany
    refine List.any_eq_true.mpr ⟨p, hp, ?_⟩
    rw [hfst, hb]
    exact beq_self_eq_true k

theorem weekMapAdd_keys_nodup (m : List (Nat × WeekTotals)) (wk : ContributorWeek)
    (h : (m.map Prod.fst).Nodup) : ((weekMapAdd m wk).map Prod.fst).Nodup := by
  unfold weekMapAdd
  split
  · exact h
  · split
    · exact h
    · exact assocSet_keys_nodup _ _ _ h

theorem buildWeekMap_keys_nodup (stats : List ContributorStat) :
    ((buildWeekMap stats).map Prod.fst).Nodup := by
  unfold buildWeekMap
  refine foldl_preserve (fun m : List (Nat × WeekTotals) => (m.map Prod.fst).Nodup) _
    (fun m contributor hm => ?_) stats [] (by simp)
  cases hA : contributor.authorId with
  | none => simpa [hA] using hm
  | some a =>
    simpa [hA] using
      foldl_preserve (fun m : List (Nat × WeekTotals) => (m.map Prod.fst).Nodup) weekMapAdd
        weekMapAdd_keys_nodup contributor.weeks m hm

theorem sortedWeeks_keys_nodup (stats : List ContributorStat) :
    ((sortedWeeks stats).map Prod.fst).Nodup := by
  have hperm : ((sortedWeeks stats).map Prod.fst).Perm ((buildWeekMap stats).map Prod.fst) :=
    (List.mergeSort_perm _ _).map Prod.fst
  exact (hperm.nodup_iff).mpr (buildWeekMap_keys_nodup stats)

theorem processStatsStep_establish (repoId language : String) (rows : List CommitRow)
    (entry : Nat × WeekTotals) :
    ∀ r ∈ processStatsStep repoId language rows entry,
      commitKeyMatch repoId language ((entry.1 : Int) * 1000) r = true →
      r.commitCount = entry.2.commits ∧ r.linesAdded = entry.2.added
        ∧ r.linesRemoved = entry.2.removed := by
  intro r hr hmatch
  unfold processStatsStep at hr
  dsimp only at hr
  by_cases hany : rows.any (commitKeyMatch repoId language ((entry.1 : Int) * 1000)) = true
  · rw [if_pos hany] at hr
    rcases List.mem_map.mp hr with ⟨r0, hr0, heq⟩
    by_cases hm0 : commitKeyMatch repoId language ((entry.1 : Int) * 1000) r0 = true
    · rw [if_pos hm0] at heq
      rw [← heq]
      exact ⟨rfl, rfl, rfl⟩
    · rw [if_neg hm0] at heq
      rw [← heq] at hmatch
      exact absurd hmatch hm0
  · rw [if_neg hany] at hr
    rcases List.mem_append.mp hr with hmem | hmem
    · exact absurd (List.any_eq_true.mpr ⟨r, hmem, hmatch⟩) hany
    · simp only [List.mem_singleton] at hmem
      rw [hmem]
      exact ⟨rfl, rfl, rfl⟩

theorem processStatsStep_preserve (repoId language : String) (rows : List CommitRow)
    (entry : Nat × WeekTotals) (key : Nat) (tot : WeekTotals) (hk : entry.1 ≠ key)
    (hP : ∀ r ∈ rows, commitKeyMatch repoId language ((key : Int) * 1000) r = true →
      r.commitCount = tot.commits ∧ r.linesAdded = tot.added ∧ r.linesRemoved = tot.removed) :
    ∀ r ∈ processStatsStep repoId language rows entry,
      commitKeyMatch repoId language ((key : Int) * 1000) r = true →
      r.commitCount = tot.commits ∧ r.linesAdded = tot.added ∧ r.linesRemoved = tot.removed := by
  intro r hr hmatch
  unfold processStatsStep at hr
  dsimp only at hr
  have hdates : ((entry.1 : Int) * 1000) ≠ ((key : Int) * 1000) := by
    intro hcontra
    apply hk
    have h1000 := mul_right_cancel₀ (by norm_num : (1000 : ℤ) ≠ 0) hcontra
    exact_mod_cast h1000
  by_cases hany : rows.any (commitKeyMatch repoId language ((entry.1 : Int) * 1000)) = true
  · rw [if_pos hany] at hr
    rcases List.mem_map.mp hr with ⟨r0, hr0, heq⟩
    by_cases hm0 : commitKeyMatch repoId language ((entry.1 : Int) * 1000) r0 = true
    · rw [if_pos hm0] at heq
      exfalso
      rw [← heq] at hmatch
      simp only [commitKeyMatch, Bool.and_eq_true, beq_iff_eq] at hm0 hmatch
      exact hdates (hm0.1.1.symm.trans hmatch.1.1)
    · rw [if_neg hm0] at heq
      rw [← heq]
      exact hP r0 hr0 (by rw [heq]; exact hmatch)
  · rw [if_neg hany] at hr
    rcases List.mem_append.mp hr with hmem | hmem
    · exact hP r hmem hmatch
    · exfalso
      simp only [List.mem_singleton] at hmem
      rw [hmem] at hmatch
      simp only [commitKeyMatch, Bool.and_eq_true, beq_iff_eq] at hmatch
      exact hdates hmatch.1.1

theorem processStats_foldl_preserve (repoId language : String) (key : Nat)
    (tot : WeekTotals) :
    ∀ (entries : List (Nat × WeekTotals)) (rows : List CommitRow),
      (∀ e ∈ entries, e.1 ≠ key) →
      (∀ r ∈ rows, commitKeyMatch repoId language ((key : Int) * 1000) r = true →
        r.commitCount = tot.commits ∧ r.linesAdded = tot.added ∧ r.linesRemoved = tot.removed) →
      ∀ r ∈ entries.foldl (processStatsStep repoId language) rows,
        commitKeyMatch repoId language ((key : Int) * 1000) r = true →
        r.commitCount = tot.commits ∧ r.linesAdded = tot.added ∧ r.linesRemoved = tot.removed := by
  intro entries
  induction entries with
  | nil => intro rows hkeys hP; simpa using hP
  | cons e rest ih =>
    intro rows hkeys hP
    simp only [List.foldl_cons]
    refine ih _ (fun e' he' => hkeys e' (List.mem_cons_of_mem e he')) ?_
    exact processStatsStep_preserve repoId language rows e key tot
      (hkeys e (List.mem_cons_self e rest)) hP

theorem processStats_foldl_establish (repoId language : String) :
    ∀ (entries : List (Nat × WeekTotals)) (rows : List CommitRow) (key : Nat)
      (tot : WeekTotals),
      (entries.map Prod.fst).Nodup → (key, tot) ∈ entries →
      ∀ r ∈ entries.foldl (processStatsStep repoId language) rows,
        commitKeyMatch repoId language ((key : Int) * 1000) r = true →
        r.commitCount = tot.commits ∧ r.linesAdded = tot.added ∧ r.linesRemoved = tot.removed := by
  intro entries
  induction entries with
  | nil => intro rows key tot hnd hmem; simp at hmem
  | cons e rest ih =>
    intro rows key tot hnd hmem
    simp only [List.foldl_cons]
    have hnd' : (e.1 :: rest.map Prod.fst).Nodup := by
      simpa only [List.map_cons] using hnd
    have hnotin : e.1 ∉ rest.map Prod.fst := (List.nodup_cons.mp hnd').1
    have hndrest : (rest.map Prod.fst).Nodup := (List.nodup_cons.mp hnd').2
    rcases List.mem_cons.mp hmem with heq | hmem'
    · have he1 : e.1 = key := by rw [← heq]
      have he2 : e.2 = tot := by rw [← heq]
      have hkeys : ∀ e' ∈ rest, e'.1 ≠ key := by
        intro e' he' hcontra
        exact hnotin (List.mem_map.mpr ⟨e', he', by rw [hcontra, he1]⟩)
      refine processStats_foldl_preserve repoId language key tot rest _ hkeys ?_
      intro r hr hm
      have hestab := processStatsStep_establish repoId language rows e r hr
        (by rw [he1]; exact hm)
      rw [← he2]
      exact hestab
    · exact ih _ key tot hndrest hmem'

theorem prAddToDay_keys_nodup (m : List (Int × PRDayAggregate)) (msOpt : Option Int)
    (f : PRDayAggregate → PRDayAggregate) (h : (m.map Prod.fst).Nodup) :
    ((prAddToDay m msOpt f).map Prod.fst).Nodup := by
  unfold prAddToDay
  cases msOpt with
  | none => exact h
  | some ms => exact assocSet_keys_nodup _ _ _ h

theorem buildPRDayMap_keys_nodup (prs : List RepoPullRequest) :
    ((buildPRDayMap prs).map Prod.fst).Nodup := by
  unfold buildPRDayMap
  refine foldl_preserve (fun m : List (Int × PRDayAggregate) => (m.map Prod.fst).Nodup) _
    (fun m pr hm => ?_) prs [] (by simp)
  dsimp only
  cases hM : pr.merged_at with
  | none =>
    exact prAddToDay_keys_nodup _ _ _ (prAddToDay_keys_nodup _ _ _ hm)
  | some mergedAt =>
    exact prAddToDay_keys_nodup _ _ _
      (prAddToDay_keys_nodup _ _ _ (prAddToDay_keys_nodup _ _ _ hm))

theorem processPRsStep_establish (repoId language : String) (rows : List PRRow)
    (entry : Int × PRDayAggregate) :
    ∀ r ∈ processPRsStep repoId language rows entry,
      prKeyMatch repoId language entry.1 r = true →
      r.prsOpened = entry.2.opened ∧ r.prsClosed = entry.2.closed
        ∧ r.prsMerged = entry.2.merged
        ∧ r.avgTimeToMergeHrs = (if 0 < entry.2.mergeCount
            then some (entry.2.mergeHoursTotal / (entry.2.mergeCount : ℚ)) else none) := by
  intro r hr hmatch
  unfold processPRsStep at hr
  dsimp only at hr
  by_cases hany : rows.any (prKeyMatch repoId language entry.1) = true
  · rw [if_pos hany] at hr
    rcases List.mem_map.mp hr with ⟨r0, hr0, heq⟩
    by_cases hm0 : prKeyMatch repoId language entry.1 r0 = true
    · rw [if_pos hm0] at heq
      rw [← heq]
      exact ⟨rfl, rfl, rfl, rfl⟩
    · rw [if_neg hm0] at heq
      rw [← heq] at hmatch
      exact absurd hmatch hm0
  · rw [if_neg hany] at hr
    rcases List.mem_append.mp hr with hmem | hmem
    · exact absurd (List.any_eq_true.mpr ⟨r, hmem, hmatch⟩) hany
    · simp only [List.mem_singleton] at hmem
      rw [hmem]
      exact ⟨rfl, rfl, rfl, rfl⟩

theorem processPRsStep_preserve (repoId language : String) (rows : List PRRow)
    (entry : Int × PRDayAggregate) (key : Int) (agg : PRDayAggregate)
    (hk : entry.1 ≠ key)
    (hP : ∀ r ∈ rows, prKeyMatch repoId language key r = true →
      r.prsOpened = agg.opened ∧ r.prsClosed = agg.closed ∧ r.prsMerged = agg.merged
        ∧ r.avgTimeToMergeHrs = (if 0 < agg.mergeCount
            then some (agg.mergeHoursTotal / (agg.mergeCount : ℚ)) else none)) :
    ∀ r ∈ processPRsStep repoId language rows entry,
      prKeyMatch repoId language key r = true →
      r.prsOpened = agg.opened ∧ r.prsClosed = agg.closed ∧ r.prsMerged = agg.merged
        ∧ r.avgTimeToMergeHrs = (if 0 < agg.mergeCount
            then some (agg.mergeHoursTotal / (agg.mergeCount : ℚ)) else none) := by
  intro r hr hmatch
  unfold processPRsStep at hr
  dsimp only at hr
  by_cases hany : rows.any (prKeyMatch repoId language entry.1) = true
  · rw [if_pos hany] at hr
    rcases List.mem_map.mp hr with ⟨r0, hr0, heq⟩
    by_cases hm0 : prKeyMatch repoId language entry.1 r0 = true
    · rw [if_pos hm0] at heq
      exfalso
      rw [← heq] at hmatch
      simp only [prKeyMatch, Bool.and_eq_true, beq_iff_eq] at hm0 hmatch
      exact hk (hm0.1.1.symm.trans hmatch.1.1)
    · rw [if_neg hm0] at heq
      rw [← heq]
      exact hP r0 hr0 (by rw [heq]; exact hmatch)
  · rw [if_neg hany] at hr
    rcases List.mem_append.mp hr with hmem | hmem
    · exact hP r hmem hmatch
    · exfalso
      simp only [List.mem_singleton] at hmem
      rw [hmem] at hmatch
      simp only [prKeyMatch, Bool.and_eq_true, beq_iff_eq] at hmatch
      exact hk hmatch.1.1

theorem processPRs_foldl_preserve (repoId language : String) (key : Int)
    (agg : PRDayAggregate) :
    ∀ (entries : List (Int × PRDayAggregate)) (rows : List PRRow),
      (∀ e ∈ entries, e.1 ≠ key) →
      (∀ r ∈ rows, prKeyMatch repoId language key r = true →
        r.prsOpened = agg.opened ∧ r.prsClosed = agg.closed ∧ r.prsMerged = agg.merged
          ∧ r.avgTimeToMergeHrs = (if 0 < agg.mergeCount
              then some (agg.mergeHoursTotal / (agg.mergeCount : ℚ)) else none)) →
      ∀ r ∈ entries.foldl (processPRsStep repoId language) rows,
        prKeyMatch repoId language key r = true →
        r.prsOpened = agg.opened ∧ r.prsClosed = agg.closed ∧ r.prsMerged = agg.merged
          ∧ r.avgTimeToMergeHrs = (if 0 < agg.mergeCount
              then some (agg.mergeHoursTotal / (agg.mergeCount : ℚ)) else none) := by
  intro entries
  induction entries with
  | nil => intro rows hkeys hP; simpa using hP
  | cons e rest ih =>
    intro rows hkeys hP
    simp only [List.foldl_cons]
    refine ih _ (fun e' he' => hkeys e' (List.mem_cons_of_mem e he')) ?_
    exact processPRsStep_preserve repoId language rows e key agg
      (hkeys e (List.mem_cons_self e rest)) hP

theorem processPRs_foldl_establish (repoId language : String) :
    ∀ (entries : List (Int × PRDayAggregate)) (rows : List PRRow) (key : Int)
      (agg : PRDayAggregate),
      (entries.map Prod.fst).Nodup → (key, agg) ∈ entries →
      ∀ r ∈ entries.foldl (processPRsStep repoId language) rows,
        prKeyMatch repoId language key r = true →
        r.prsOpened = agg.opened ∧ r.prsClosed = agg.closed ∧ r.prsMerged = agg.merged
          ∧ r.avgTimeToMergeHrs = (if 0 < agg.mergeCount
              then some (agg.mergeHoursTotal / (agg.mergeCount : ℚ)) else none) := by
  intro entries
  induction entries with
  | nil => intro rows key agg hnd hmem; simp at hmem
  | cons e rest ih =>
    intro rows key agg hnd hmem
    simp only [List.foldl_cons]
    have hnd' : (e.1 :: rest.map Prod.fst).Nodup := by
      simpa only [List.map_cons] using hnd
    have hnotin : e.1 ∉ rest.map Prod.fst := (List.nodup_cons.mp hnd').1
    have hndrest : (rest.map Prod.fst).Nodup := (List.nodup_cons.mp hnd').2
    rcases List.mem_cons.mp hmem with heq | hmem'
    · have he1 : e.1 = key := by rw [← heq]
      have he2 : e.2 = agg := by rw [← heq]
      have hkeys : ∀ e' ∈ rest, e'.1 ≠ key := by
        intro e' he' hcontra
        exact hnotin (List.mem_map.mpr ⟨e', he', by rw [hcontra, he1]⟩)
      refine processPRs_foldl_preserve repoId language key agg rest _ hkeys ?_
      intro r hr hm
      have hestab := processPRsStep_establish repoId language rows e r hr
        (by rw [he1]; exact hm)
      rw [← he2]
      exact hestab
    · exact ih _ key agg hndrest hmem'

/-- Claim C6 as amended: commit-metric rows at an existing `(date, repoId,
language)` key are, like PR day-bucket rows, replaced wholesale by a sync
run — after `processRepoStats` every stored commit row at a processed week
key carries exactly the newly computed `commitCount`/`linesAdded`/
`linesRemoved` totals (not the previous values incremented), and after
`processRepoPRs` every stored PR day row at a processed day carries exactly
the newly computed open/close/merge counts and mean merge latency. -/
theorem C6_amended_flow_upsert (repoId language : String) :
    (∀ (rows : List CommitRow) (stats : List ContributorStat) (key : Nat)
        (tot : WeekTotals),
      (key, tot) ∈ sortedWeeks stats →
      ∀ r ∈ processRepoStats rows repoId language stats,
        commitKeyMatch repoId language ((key : Int) * 1000) r = true →
        r.commitCount = tot.commits ∧ r.linesAdded = tot.added
          ∧ r.linesRemoved = tot.removed)
    ∧ (∀ (rows : List PRRow) (prs : List RepoPullRequest) (key : Int)
        (agg : PRDayAggregate),
      (key, agg) ∈ buildPRDayMap prs →
      ∀ r ∈ processRepoPRs rows repoId language prs,
        prKeyMatch repoId language key r = true →
        r.prsOpened = agg.opened ∧ r.prsClosed = agg.closed ∧ r.prsMerged = agg.merged
          ∧ r.avgTimeToMergeHrs = (if 0 < agg.mergeCount
              then some (agg.mergeHoursTotal / (agg.mergeCount : ℚ)) else none)) := by
  constructor
  · intro rows stats key tot hmem r hr hmatch
    exact processStats_foldl_establish repoId language (sortedWeeks stats) rows key tot
      (sortedWeeks_keys_nodup stats) hmem r hr hmatch
  · intro rows prs key agg hmem r hr hmatch
    exact processPRs_foldl_establish repoId language (buildPRDayMap prs) rows key agg
      (buildPRDayMap_keys_nodup prs) hmem r hr hmatch

/-- Witness for the amended C6: processing week `(c, a, d) = (3, 2, 1)` over a
store holding `(5, 10, 20)` at the same key leaves the replaced row
`(3, 2, 1)`; processing one PR (created at epoch 0, closed and merged one
hour later) over a store holding a stale day row leaves the freshly computed
`(1, 1, 1, some 1)` day row. -/
theorem C6_amended_flow_upsert_witness :
    ((⟨1000, "r", "TypeScript", 3, 2, 1⟩ : CommitRow).commitCount
        = (⟨3, 2, 1⟩ : WeekTotals).commits
      ∧ (⟨1000, "r", "TypeScript", 3, 2, 1⟩ : CommitRow).linesAdded
        = (⟨3, 2, 1⟩ : WeekTotals).added
      ∧ (⟨1000, "r", "TypeScript", 3, 2, 1⟩ : CommitRow).linesRemoved
        = (⟨3, 2, 1⟩ : WeekTotals).removed)
    ∧ (⟨0, "r", "TypeScript", 1, 1, 1, some 1⟩ : PRRow).prsMerged
        = (⟨1, 1, 1, 1, 1⟩ : PRDayAggregate).merged :=
  ⟨(C6_amended_flow_upsert "r" "TypeScript").1 [⟨1000, "r", "TypeScript", 5, 10, 20⟩]
      [⟨some 7, [⟨some 1, some 2, some 1, some 3⟩]⟩] 1 ⟨3, 2, 1⟩
      (by
        rw [show sortedWeeks [⟨some 7, [⟨some 1, some 2, some 1, some 3⟩]⟩]
            = [((1 : Nat), (⟨3, 2, 1⟩ : WeekTotals))] from by
          unfold sortedWeeks
          rw [show buildWeekMap [⟨some 7, [⟨some 1, some 2, some 1, some 3⟩]⟩]
              = [(1, ⟨3, 2, 1⟩)] from by decide]
          simp [List.mergeSort_singleton]]
        exact List.mem_singleton.mpr rfl)
      ⟨1000, "r", "TypeScript", 3, 2, 1⟩
      (by
        unfold processRepoStats
        rw [show sortedWeeks [⟨some 7, [⟨some 1, some 2, some 1, some 3⟩]⟩]
            = [((1 : Nat), (⟨3, 2, 1⟩ : WeekTotals))] from by
          unfold sortedWeeks
          rw [show buildWeekMap [⟨some 7, [⟨some 1, some 2, some 1, some 3⟩]⟩]
              = [(1, ⟨3, 2, 1⟩)] from by decide]
          simp [List.mergeSort_singleton]]
        decide)
      (by decide),
   ((C6_amended_flow_upsert "r" "TypeScript").2 [⟨0, "r", "TypeScript", 9, 9, 9, none⟩]
      [⟨0, some 3600000, some 3600000⟩] 0 ⟨1, 1, 1, 1, 1⟩
      (by
        rw [show buildPRDayMap [⟨0, some 3600000, some 3600000⟩]
            = [((0 : Int), (⟨1, 1, 1, 1, 1⟩ : PRDayAggregate))] from by
          norm_num [buildPRDayMap, prAddToDay, assocGet, assocSet, normalizeToDay, Int.fdiv]]
        exact List.mem_singleton.mpr rfl)
      ⟨0, "r", "TypeScript", 1, 1, 1, some 1⟩
      (by
        unfold processRepoPRs
        rw [show buildPRDayMap [⟨0, some 3600000, some 3600000⟩]
            = [((0 : Int), (⟨1, 1, 1, 1, 1⟩ : PRDayAggregate))] from by
          norm_num [buildPRDayMap, prAddToDay, assocGet, assocSet, normalizeToDay, Int.fdiv]]
        norm_num [processPRsStep, prKeyMatch])
      (by decide)).2.2.1⟩

end GHTrends
